import Mathlib

/-!
Verification development for the Vulnhalla triage core.

Shallow embedding of the Code-Index Resolver, Snippet Extractor, Context
Assembler and Triage-Engine conversation controller.  Strings are modelled
as lists of characters (`Str`), CSV export files as lists of raw text lines
(the values Python's `readline` / file iteration produce, trailing newline
included), and the `src.zip` archive as a partial map from member path to
file content.  Fallible Python operations (file open, `int(...)`,
`dict[...]`, `zipfile` member access, sequence indexing) are modelled with
`Except PyErr` / `Option`.
-/

set_option maxRecDepth 10000

abbrev Str := List Char

/-- Python-style errors that the embedded code can raise. -/
inductive PyErr where
  | codeQL
  | valueError
  | keyError
  | zipError
  | indexError
deriving DecidableEq

/-- Python `needle in hay` on strings: contiguous substring test. -/
def strIn (needle hay : Str) : Bool :=
  hay.tails.any (fun t => needle.isPrefixOf t)

/-- Python `s.replace(chr(34), "")`: remove every double-quote character. -/
def stripQuotes (x : Str) : Str := x.filter (fun c => c ≠ '"')

/-- Python `s.strip()`: drop leading and trailing whitespace. -/
def pyStrip (x : Str) : Str :=
  ((x.dropWhile Char.isWhitespace).reverse.dropWhile Char.isWhitespace).reverse

/-- Digit-string to number, `none` unless the string is nonempty and all digits. -/
def digitsToNat? (x : Str) : Option Nat :=
  if x ≠ [] ∧ x.all Char.isDigit then
    some (x.foldl (fun a c => a * 10 + (c.toNat - 48)) 0)
  else none

/-- Python `int(s)`: optional surrounding whitespace, optional sign, digits. -/
def parseInt? (x : Str) : Option Int :=
  match pyStrip x with
  | '-' :: rest => (digitsToNat? rest).map (fun n => -(n : Int))
  | '+' :: rest => (digitsToNat? rest).map (fun n => (n : Int))
  | t => (digitsToNat? t).map (fun n => (n : Int))

/-- Python `str(n)` for naturals. -/
def natToStr (n : Nat) : Str := (Nat.repr n).data

/-- Python `str(i)` for integers. -/
def intToStr (i : Int) : Str :=
  if i < 0 then '-' :: natToStr i.natAbs else natToStr i.toNat

/-- Split on a single character, Python `s.split(c)` (every occurrence). -/
def splitCh (sep : Char) : Str → List Str
  | [] => [[]]
  | c :: rest =>
    if c = sep then [] :: splitCh sep rest
    else
      match splitCh sep rest with
      | [] => [[c]]
      | h :: t => (c :: h) :: t

/-- Python `s.split("\n")` as used on file contents read from the archive. -/
def splitNl (x : Str) : List Str := splitCh '\n' x

/-- Python `"\n".join(xs)`. -/
def joinNl (xs : List Str) : Str := List.intercalate ['\n'] xs

/-- Python `s.split(sep)` for the double-colon separator (leftmost,
non-overlapping occurrences). -/
def splitDColon : Str → List Str
  | [] => [[]]
  | ':' :: ':' :: rest => [] :: splitDColon rest
  | c :: rest =>
    match splitDColon rest with
    | [] => [[c]]
    | h :: t => (c :: h) :: t

/-- Python `name.split(chr(58) ++ chr(58))[-1]`: unqualified trailing component. -/
def unqualify (x : Str) : Str := (splitDColon x).getLastD []

/-- The quote-aware CSV line splitter: `re.split` on commas followed by an even
number of double quotes (the lookahead `(?=(?:[^"]*"[^"]*")*[^"]*$)`). -/
def csvSplit : Str → List Str
  | [] => [[]]
  | c :: rest =>
    if c = ',' ∧ (rest.count '"') % 2 = 0 then [] :: csvSplit rest
    else
      match csvSplit rest with
      | [] => [[c]]
      | h :: t => (c :: h) :: t

/-- A Python dict built by `dict(zip(keys, fields))` (zip truncates). -/
abbrev RowDict := List (Str × Str)

/-- Python `dict(zip(keys, fields))`. -/
def mkDict (keys fields : List Str) : RowDict := List.zip keys fields

/-- Python `d[k]` as an option (`none` models a KeyError site). -/
def dget? (d : RowDict) (k : Str) : Option Str :=
  (d.find? (fun p => p.1 == k)).map (fun p => p.2)

def kFunctionName : Str := "function_name".data
def kFile : Str := "file".data
def kStartLine : Str := "start_line".data
def kFunctionId : Str := "function_id".data
def kEndLine : Str := "end_line".data
def kCallerId : Str := "caller_id".data
def kMacroName : Str := "macro_name".data
def kBody : Str := "body".data
def kClassName : Str := "class_name".data
def kSimpleName : Str := "simple_name".data
def kGlobalVarName : Str := "global_var_name".data
def kType : Str := "type".data

/-- Column keys of FunctionTree.csv. -/
def ftKeys : List Str :=
  [kFunctionName, kFile, kStartLine, kFunctionId, kEndLine, kCallerId]

/-- Column keys of Macros.csv. -/
def macroKeys : List Str := [kMacroName, kBody]

/-- Column keys of GlobalVars.csv. -/
def globalKeys : List Str := [kGlobalVarName, kFile, kStartLine, kEndLine]

/-- Column keys of Classes.csv. -/
def classKeys : List Str :=
  [kType, kClassName, kFile, kStartLine, kEndLine, kSimpleName]

/-- Python list slice `l[a:b]` with int bounds (negative indices wrap). -/
def pySlice {α : Type} (l : List α) (a b : Int) : List α :=
  let n : Int := l.length
  let a' : Int := if a < 0 then max 0 (n + a) else min a n
  let b' : Int := if b < 0 then max 0 (n + b) else min b n
  (l.take b'.toNat).drop a'.toNat

/-- Python list indexing `l[i]` (negative indices wrap; out of range is an
IndexError, modelled as `none`). -/
def pyIndex {α : Type} (l : List α) (i : Int) : Option α :=
  if i < 0 then
    if 0 ≤ i + l.length then l.get? (i + (l.length : Int)).toNat else none
  else l.get? i.toNat

/-! ## Code-Index Resolver (`src/llm/llm_analyzer.py`) -/

/-- `LLMAnalyzer.get_function_by_line`: scan FunctionTree.csv lines for the
function whose `[start_line, end_line]` range covers `line` in a row whose
raw text contains `file`.  The export file is `none` when unreadable
(Python raises `CodeQLError`); a KeyError / ValueError inside the loop is
propagated as in the source. -/
def get_function_by_line (tree? : Option (List Str)) (file : Str) (line : Int) :
    Except PyErr (Option RowDict) :=
  match tree? with
  | none => Except.error PyErr.codeQL
  | some rows => get_function_by_line_go file line rows
where
  get_function_by_line_go (file : Str) (line : Int) :
      List Str → Except PyErr (Option RowDict)
  | [] => Except.ok none
  | row :: rest =>
    if strIn file row then
      let d := mkDict ftKeys (csvSplit row)
      if d = [] then get_function_by_line_go file line rest
      else
        match dget? d kStartLine with
        | none => Except.error PyErr.keyError
        | some s0 =>
          if s0 = [] then get_function_by_line_go file line rest
          else
            match dget? d kEndLine with
            | none => Except.error PyErr.keyError
            | some e0 =>
              if e0 = [] then get_function_by_line_go file line rest
              else
                match parseInt? s0, parseInt? e0 with
                | some si, some ei =>
                  if si ≤ line ∧ line ≤ ei then Except.ok (some d)
                  else get_function_by_line_go file line rest
                | _, _ => Except.error PyErr.valueError
    else get_function_by_line_go file line rest

/-- Per-context scan of `LLMAnalyzer.get_function_by_name`: only rows whose raw
text contains the context record's `function_id` are considered; the
candidate name (quotes removed) must equal the unqualified query, or contain
it when `ls` (less_strict) is set. -/
def gfbnScan (cf : RowDict) (q : Str) (ls : Bool) :
    List Str → Except PyErr (Option RowDict)
  | [] => Except.ok none
  | row :: rest =>
    match dget? cf kFunctionId with
    | none => Except.error PyErr.keyError
    | some fid =>
      if strIn fid row then
        let fields := csvSplit row
        if fields = [] then gfbnScan cf q ls rest
        else
          let cand := stripQuotes (fields.headD [])
          if cand == q || (ls && strIn q cand) then
            Except.ok (some (mkDict ftKeys fields))
          else gfbnScan cf q ls rest
      else gfbnScan cf q ls rest

/-- One strictness phase of `get_function_by_name`: iterate the known-context
records, opening the export per record (an unreadable export raises). -/
def gfbnPhase (tree? : Option (List Str)) (q : Str) (ls : Bool) :
    List RowDict → Except PyErr (Option (RowDict × RowDict))
  | [] => Except.ok none
  | cf :: rest =>
    match tree? with
    | none => Except.error PyErr.codeQL
    | some rows =>
      match gfbnScan cf q ls rows with
      | Except.error e => Except.error e
      | Except.ok (some d) => Except.ok (some (d, cf))
      | Except.ok none => gfbnPhase tree? q ls rest

/-- Not-found message of `get_function_by_name`. -/
def gfbnErrMsg (function_name : Str) : Str :=
  "Function \x27".data ++ function_name ++
  "\x27 not found. Make sure you\x27re using the correct tool and args.".data

/-- `LLMAnalyzer.get_function_by_name`: strict phase over the known-context
records, then (by self-recursion in the source) the same scan with
less_strict matching, then a descriptive not-found message. -/
def get_function_by_name (tree? : Option (List Str)) (function_name : Str)
    (all_function : List RowDict) :
    Except PyErr (Sum Str RowDict × Option RowDict) :=
  let q := unqualify function_name
  match gfbnPhase tree? q false all_function with
  | Except.error e => Except.error e
  | Except.ok (some (d, cf)) => Except.ok (Sum.inr d, some cf)
  | Except.ok none =>
    match gfbnPhase tree? q true all_function with
    | Except.error e => Except.error e
    | Except.ok (some (d, cf)) => Except.ok (Sum.inr d, some cf)
    | Except.ok none => Except.ok (Sum.inl (gfbnErrMsg function_name), none)

/-- Scan of `LLMAnalyzer.get_macro` at one strictness level. -/
def macroScan (rows : List Str) (macro_name : Str) (ls : Bool) : Option RowDict :=
  rows.findSome? fun row =>
    if strIn macro_name row then
      let fields := csvSplit row
      if fields = [] then none
      else
        let actual := stripQuotes (fields.headD [])
        if actual == macro_name || (ls && strIn macro_name actual) then
          some (mkDict macroKeys fields)
        else none
    else none

/-- Not-found message of `get_macro`. -/
def macroErrMsg (macro_name : Str) : Str :=
  "Macro \x27".data ++ macro_name ++
  "\x27 not found. Make sure you\x27re using the correct tool with correct args.".data

/-- `LLMAnalyzer.get_macro`: exact scan, then less-strict scan, then message. -/
def get_macro (macros? : Option (List Str)) (macro_name : Str) :
    Except PyErr (Sum Str RowDict) :=
  match macros? with
  | none => Except.error PyErr.codeQL
  | some rows =>
    match macroScan rows macro_name false with
    | some d => Except.ok (Sum.inr d)
    | none =>
      match macroScan rows macro_name true with
      | some d => Except.ok (Sum.inr d)
      | none => Except.ok (Sum.inl (macroErrMsg macro_name))

/-- Scan of `LLMAnalyzer.get_global_var` at one strictness level. -/
def globalScan (rows : List Str) (vOnly : Str) (ls : Bool) : Option RowDict :=
  rows.findSome? fun row =>
    if strIn vOnly row then
      let fields := csvSplit row
      if fields = [] then none
      else
        let actual := stripQuotes (fields.headD [])
        if actual == vOnly || (ls && strIn vOnly actual) then
          some (mkDict globalKeys fields)
        else none
    else none

/-- Not-found message of `get_global_var`. -/
def globalErrMsg (global_var_name : Str) : Str :=
  "Global var \x27".data ++ global_var_name ++
  "\x27 not found. Could it be a macro or should you use another tool?".data

/-- `LLMAnalyzer.get_global_var`. -/
def get_global_var (globals? : Option (List Str)) (global_var_name : Str) :
    Except PyErr (Sum Str RowDict) :=
  let vOnly := unqualify global_var_name
  match globals? with
  | none => Except.error PyErr.codeQL
  | some rows =>
    match globalScan rows vOnly false with
    | some d => Except.ok (Sum.inr d)
    | none =>
      match globalScan rows vOnly true with
      | some d => Except.ok (Sum.inr d)
      | none => Except.ok (Sum.inl (globalErrMsg global_var_name))

/-- Scan of `LLMAnalyzer.get_class` at one strictness level.  Accessing the
`class_name` / `simple_name` entries of a short row is a KeyError. -/
def classScan (cOnly : Str) (ls : Bool) : List Str → Except PyErr (Option RowDict)
  | [] => Except.ok none
  | row :: rest =>
    if strIn cOnly row then
      let fields := csvSplit row
      if fields = [] then classScan cOnly ls rest
      else
        let d := mkDict classKeys fields
        match dget? d kClassName, dget? d kSimpleName with
        | some cn, some sn =>
          let actual := stripQuotes cn
          let simple := stripQuotes sn
          if actual == cOnly || simple == cOnly ||
             (ls && strIn cOnly actual) || (ls && strIn cOnly simple) then
            Except.ok (some d)
          else classScan cOnly ls rest
        | _, _ => Except.error PyErr.keyError
    else classScan cOnly ls rest

/-- Not-found message of `get_class`. -/
def classErrMsg (class_name : Str) : Str :=
  "Class \x27".data ++ class_name ++ "\x27 not found. Could it be a Namespace?".data

/-- `LLMAnalyzer.get_class`. -/
def get_class (classes? : Option (List Str)) (class_name : Str) :
    Except PyErr (Sum Str RowDict) :=
  let cOnly := unqualify class_name
  match classes? with
  | none => Except.error PyErr.codeQL
  | some rows =>
    match classScan cOnly false rows with
    | Except.error e => Except.error e
    | Except.ok (some d) => Except.ok (Sum.inr d)
    | Except.ok none =>
      match classScan cOnly true rows with
      | Except.error e => Except.error e
      | Except.ok (some d) => Except.ok (Sum.inr d)
      | Except.ok none => Except.ok (Sum.inl (classErrMsg class_name))

/-- Scan of `LLMAnalyzer.get_caller_function`: find the row whose
`function_id` (quotes removed, stripped) equals the caller id. -/
def callerScan (cid : Str) : List Str → Except PyErr (Option RowDict)
  | [] => Except.ok none
  | row :: rest =>
    if strIn cid row then
      let d := mkDict ftKeys (csvSplit row)
      if d = [] then callerScan cid rest
      else
        match dget? d kFunctionId with
        | none => Except.error PyErr.keyError
        | some fid =>
          if pyStrip (stripQuotes fid) == cid then Except.ok (some d)
          else callerScan cid rest
    else callerScan cid rest

/-- Not-found message of `get_caller_function`. -/
def callerErrMsg : Str :=
  ("Caller function was not found. " ++
   "Make sure you are using the correct tool with the correct args.").data

/-- `LLMAnalyzer.get_caller_function`: resolve `caller_id` by exact identifier
match, falling back to a `file:line` interpretation (whose `int(...)` raises
ValueError on a non-numeric line part, as in the source). -/
def get_caller_function (tree? : Option (List Str)) (current_function : RowDict) :
    Except PyErr (Sum Str RowDict) :=
  match dget? current_function kCallerId with
  | none => Except.error PyErr.keyError
  | some cid0 =>
    let caller_id := pyStrip (stripQuotes cid0)
    match tree? with
    | none => Except.error PyErr.codeQL
    | some rows =>
      match callerScan caller_id rows with
      | Except.error e => Except.error e
      | Except.ok (some d) => Except.ok (Sum.inr d)
      | Except.ok none =>
        match splitCh ':' caller_id with
        | [file_part, line_part] =>
          match parseInt? line_part with
          | none => Except.error PyErr.valueError
          | some l =>
            match get_function_by_line (some rows) (file_part.drop 1) l with
            | Except.error e => Except.error e
            | Except.ok (some f) => Except.ok (Sum.inr f)
            | Except.ok none => Except.ok (Sum.inl callerErrMsg)
        | _ => Except.ok (Sum.inl callerErrMsg)

/-! ## Snippet Extractor (`LLMAnalyzer.extract_function_from_file`) -/

/-- `LLMAnalyzer.extract_function_from_file`: read the function's file from the
archived source tree (a partial map from member path to content), slice out
lines `start_line - 1 .. end_line`, prefix each with `start_line - 1 + i`,
and prepend a `file:` header.  A non-dict argument (a lookup's not-found
message) is returned as-is. -/
def extract_function_from_file (zipf : Str → Option Str)
    (current_function : Sum Str RowDict) : Except PyErr Str :=
  match current_function with
  | Sum.inl msg => Except.ok msg
  | Sum.inr d =>
    match dget? d kFile with
    | none => Except.error PyErr.keyError
    | some f0 =>
      let file_path := (stripQuotes f0).drop 1
      match zipf file_path with
      | none => Except.error PyErr.zipError
      | some code_file =>
        let lines := splitNl code_file
        match dget? d kStartLine with
        | none => Except.error PyErr.keyError
        | some s0 =>
          match parseInt? s0 with
          | none => Except.error PyErr.valueError
          | some start_line =>
            match dget? d kEndLine with
            | none => Except.error PyErr.keyError
            | some e0 =>
              match parseInt? e0 with
              | none => Except.error PyErr.valueError
              | some end_line =>
                let snippet_lines := pySlice lines (start_line - 1) end_line
                let snippet := joinNl (snippet_lines.enum.map
                  (fun p => intToStr (start_line - 1 + (p.1 : Int)) ++ ": ".data ++ p.2))
                Except.ok ("file: ".data ++ file_path ++ ['\n'] ++ snippet)

/-! ## Triage Engine / Conversation Controller
(`LLMAnalyzer.run_llm_security_analysis`)

Model responses are supplied as a finite oracle list (one entry per loop
iteration); the secondary argument-mapping side-query
(`map_func_args_by_llm`) is modelled by a deterministic oracle function from
the caller and callee snippets to the reply content (the API assigns such
replies the assistant role). -/

/-- One tool invocation requested by the model (`tc.function.name`,
`tc.function.arguments` parsed into a dict). -/
structure ToolCall where
  id : Str
  name : Str
  arguments : List (Str × Str)
deriving DecidableEq

/-- One conversation turn, covering the message dict shapes the source builds
(system/user turns, assistant turns carrying tool calls, tool replies). -/
structure Msg where
  role : Str
  content : Option Str
  tool_call_id : Option Str
  name : Option Str
  tool_calls : List ToolCall
deriving DecidableEq

/-- One model response per loop iteration (`response.choices[0].message`). -/
structure ModelResp where
  content : Option Str
  tool_calls : List ToolCall
deriving DecidableEq

/-- The export files and source archive behind one CodeQL database. -/
structure DBFiles where
  function_tree : Option (List Str)
  macros_csv : Option (List Str)
  global_vars_csv : Option (List Str)
  classes_csv : Option (List Str)
  src_zip : Str → Option Str

/-- The loop state threaded through iterations of the controller. -/
structure LoopSt where
  messages : List Msg
  all_functions : List RowDict
  current_function : RowDict
  amount_of_tools : Nat
deriving DecidableEq

def sysMsg1 : Str :=
  ("You are an expert security researcher.\nYour task is to verify if the issue that was found has a real security impact.\nReturn a concise status code based on the guidelines provided.\nUse the tools function when you need code from other parts of the program.\nYou *MUST* follow the guidelines!").data

def sysMsg2 : Str :=
  ("### Answer Guidelines\nYour answer must be in the following order!\n1. Briefly explain the code.\n2. Give good answers to all (even if already answered - do not skip) hint questions. (Copy the question word for word, then provide the answer.)\n3. Do you have all the code needed to answer the questions? If no, use the tools!\n4. Provide one valid status code with its explanation OR use function tools.\n").data

def sysMsg3 : Str :=
  ("### Status Codes\n- **1337**: Indicates a security vulnerability. If legitimate, specify the parameters that could exploit the issue in minimal words.\n- **1007**: Indicates the code is secure. If it\x27s not a real issue, specify what aspect of the code protects against the issue in minimal words.\n- **7331**: Indicates more code is needed to validate security. Write what data you need and explain why you can\x27t use the tools to retrieve the missing data, plus add **3713** if you\x27re pretty sure it\x27s not a security problem.\nOnly one status should be returned!\nYou will get 10000000000$ if you follow all the instructions and use the tools correctly!").data

/-- `LLMAnalyzer.MESSAGES`: the fixed system-instruction prefix. -/
def MESSAGES : List Msg :=
  [⟨"system".data, some sysMsg1, none, none, []⟩,
   ⟨"system".data, some sysMsg2, none, none, []⟩,
   ⟨"system".data, some sysMsg3, none, none, []⟩]

/-- The reminder turn appended when a text-only reply has no status code. -/
def reminderMsg : Msg :=
  ⟨"system".data, some ("Please follow all the instructions!").data, none, none, []⟩

/-- The stop-warning turn appended once at least 6 tool iterations happened. -/
def warnMsg : Msg :=
  ⟨"system".data,
   some ("You called too many tools! If you still can\x27t give a clear answer, return the \x27more data\x27 status.").data,
   none, none, []⟩

/-- The four status-code marker tokens the controller scans for. -/
def statusTokens : List Str :=
  ["1337".data, "1007".data, "7331".data, "3713".data]

/-- Whether a reply text contains at least one of the four status tokens. -/
def hasStatusToken (x : Str) : Bool := statusTokens.any (fun t => strIn t x)

/-- Number of distinct status tokens occurring in a reply text. -/
def countStatusTokens (x : Str) : Nat :=
  (statusTokens.filter (fun t => strIn t x)).length

/-- Python `str(dict)` for the string-valued argument dicts of the model. -/
def pyDictRepr (args : List (Str × Str)) : Str :=
  "\x7b".data ++
  List.intercalate (", ".data)
    (args.map (fun p => "\x27".data ++ p.1 ++ "\x27: \x27".data ++ p.2 ++ "\x27".data)) ++
  "\x7d".data

/-- The mismatch reply for an unknown tool name or missing required argument. -/
def mismatchStr (name : Str) (args : List (Str × Str)) : Str :=
  "No matching tool \x27".data ++ name ++ "\x27 or invalid args ".data ++
  pyDictRepr args ++ ". Try again.".data

/-- The `role="tool"` reply turn tied to one invocation. -/
def toolReply (tc : ToolCall) (resp : Str) : Msg :=
  ⟨"tool".data, some resp, some tc.id, some tc.name, []⟩

/-- An assistant-role turn carrying the argument-mapping side-query's answer. -/
def argMapMsg (content : Str) : Msg :=
  ⟨"assistant".data, some content, none, none, []⟩

/-- Dispatch of one tool invocation (the if/elif chain of the loop body):
returns the reply text plus the updated known-function list, the updated
current function, and the accumulated argument-mapping turns. -/
def dispatchTool (db : DBFiles) (argMapper : Str → Str → Str)
    (allF : List RowDict) (cur : RowDict) (argMsgs : List Msg) (tc : ToolCall) :
    Except PyErr (Str × List RowDict × RowDict × List Msg) :=
  if tc.name == "get_function_code".data then
    match dget? tc.arguments ("function_name".data) with
    | none => Except.ok (mismatchStr tc.name tc.arguments, allF, cur, argMsgs)
    | some fname =>
      match get_function_by_name db.function_tree fname allF with
      | Except.error e => Except.error e
      | Except.ok (child, parent) =>
        let allF1 := match child with
          | Sum.inr d => allF ++ [d]
          | Sum.inl _ => allF
        match extract_function_from_file db.src_zip child with
        | Except.error e => Except.error e
        | Except.ok child_code =>
          match child, parent with
          | Sum.inr _, some p =>
            match extract_function_from_file db.src_zip (Sum.inr p) with
            | Except.error e => Except.error e
            | Except.ok caller_code =>
              Except.ok (child_code, allF1, cur,
                argMsgs ++ [argMapMsg (argMapper caller_code child_code)])
          | _, _ => Except.ok (child_code, allF1, cur, argMsgs)
  else if tc.name == "get_caller_function".data then
    match get_caller_function db.function_tree cur with
    | Except.error e => Except.error e
    | Except.ok (Sum.inl msg) => Except.ok (msg, allF, cur, argMsgs)
    | Except.ok (Sum.inr d) =>
      let allF1 := allF ++ [d]
      match extract_function_from_file db.src_zip (Sum.inr d) with
      | Except.error e => Except.error e
      | Except.ok caller_code =>
        match dget? cur kFunctionName with
        | none => Except.error PyErr.keyError
        | some fname =>
          match extract_function_from_file db.src_zip (Sum.inr cur) with
          | Except.error e => Except.error e
          | Except.ok cur_code =>
            Except.ok
              ("Here is the caller function for \x27".data ++ fname ++
                 "\x27:\n".data ++ caller_code,
               allF1, d,
               argMsgs ++ [argMapMsg (argMapper caller_code cur_code)])
  else if tc.name == "get_macro".data then
    match dget? tc.arguments kMacroName with
    | none => Except.ok (mismatchStr tc.name tc.arguments, allF, cur, argMsgs)
    | some mname =>
      match get_macro db.macros_csv mname with
      | Except.error e => Except.error e
      | Except.ok (Sum.inr d) =>
        match dget? d kBody with
        | none => Except.error PyErr.keyError
        | some b => Except.ok (b, allF, cur, argMsgs)
      | Except.ok (Sum.inl msg) => Except.ok (msg, allF, cur, argMsgs)
  else if tc.name == "get_global_var".data then
    match dget? tc.arguments kGlobalVarName with
    | none => Except.ok (mismatchStr tc.name tc.arguments, allF, cur, argMsgs)
    | some gname =>
      match get_global_var db.global_vars_csv gname with
      | Except.error e => Except.error e
      | Except.ok (Sum.inr d) =>
        match extract_function_from_file db.src_zip (Sum.inr d) with
        | Except.error e => Except.error e
        | Except.ok code => Except.ok (code, allF, cur, argMsgs)
      | Except.ok (Sum.inl msg) => Except.ok (msg, allF, cur, argMsgs)
  else if tc.name == "get_class".data then
    match dget? tc.arguments ("object_name".data) with
    | none => Except.ok (mismatchStr tc.name tc.arguments, allF, cur, argMsgs)
    | some oname =>
      match get_class db.classes_csv oname with
      | Except.error e => Except.error e
      | Except.ok (Sum.inr d) =>
        match extract_function_from_file db.src_zip (Sum.inr d) with
        | Except.error e => Except.error e
        | Except.ok code => Except.ok (code, allF, cur, argMsgs)
      | Except.ok (Sum.inl msg) => Except.ok (msg, allF, cur, argMsgs)
  else
    Except.ok (mismatchStr tc.name tc.arguments, allF, cur, argMsgs)

/-- Process one iteration's tool invocations in order: each produces a
`role="tool"` reply appended immediately; argument-mapping turns are
collected and appended after all replies (as in the source). -/
def processTools (db : DBFiles) (argMapper : Str → Str → Str) :
    List ToolCall → List RowDict → RowDict → List Msg → List Msg →
    Except PyErr (List Msg × List Msg × List RowDict × RowDict)
  | [], allF, cur, toolMsgs, argMsgs => Except.ok (toolMsgs, argMsgs, allF, cur)
  | tc :: rest, allF, cur, toolMsgs, argMsgs =>
    match dispatchTool db argMapper allF cur argMsgs tc with
    | Except.error e => Except.error e
    | Except.ok (resp, allF1, cur1, argMsgs1) =>
      processTools db argMapper rest allF1 cur1
        (toolMsgs ++ [toolReply tc resp]) argMsgs1

/-- Result of one loop iteration. -/
inductive StepRes where
  | done (msgs : List Msg) (final : Str)
  | next (st : LoopSt)
  | err (e : PyErr)
deriving DecidableEq

/-- One iteration of the conversation loop: append the assistant turn; a
text-only turn either terminates (when a status token is present) or draws
a reminder; a tool-carrying turn is dispatched, the tool counter increments
once, and the stop warning is appended when the counter reached 6. -/
def stepIter (db : DBFiles) (argMapper : Str → Str → Str) (st : LoopSt)
    (r : ModelResp) : StepRes :=
  let msgs1 := st.messages ++ [⟨"assistant".data, r.content, none, none, r.tool_calls⟩]
  let final := r.content.getD []
  if r.tool_calls = [] then
    if final ≠ [] ∧ hasStatusToken final = true then StepRes.done msgs1 final
    else
      StepRes.next ⟨msgs1 ++ [reminderMsg], st.all_functions, st.current_function,
        st.amount_of_tools⟩
  else
    match processTools db argMapper r.tool_calls st.all_functions
        st.current_function [] [] with
    | Except.error e => StepRes.err e
    | Except.ok (toolMsgs, argMsgs, allF, cur) =>
      let tools1 := st.amount_of_tools + 1
      let msgs2 := msgs1 ++ toolMsgs ++ argMsgs
      let msgs3 := if 6 ≤ tools1 then msgs2 ++ [warnMsg] else msgs2
      StepRes.next ⟨msgs3, allF, cur, tools1⟩

/-- Outcome of running the loop against a finite oracle of model responses. -/
inductive RunOut where
  | finished (msgs : List Msg) (final : Str)
  | raised (e : PyErr)
  | pending (st : LoopSt)
deriving DecidableEq

/-- Run the conversation loop, one oracle response per iteration. -/
def runLoop (db : DBFiles) (argMapper : Str → Str → Str) :
    List ModelResp → LoopSt → RunOut
  | [], st => RunOut.pending st
  | r :: rest, st =>
    match stepIter db argMapper st r with
    | StepRes.done m f => RunOut.finished m f
    | StepRes.err e => RunOut.raised e
    | StepRes.next st1 => runLoop db argMapper rest st1

/-- `LLMAnalyzer.run_llm_security_analysis`: seed the transcript with the fixed
system instructions plus the user prompt and iterate until a terminal
status, an exception, or oracle exhaustion. -/
def run_llm_security_analysis (db : DBFiles) (argMapper : Str → Str → Str)
    (prompt : Str) (current_function : RowDict) (functions : List RowDict)
    (resps : List ModelResp) : RunOut :=
  runLoop db argMapper resps
    ⟨MESSAGES ++ [⟨"user".data, some prompt, none, none, []⟩],
     functions, current_function, 0⟩

/-! ## Context Assembler (`src/vulnhalla.py`) -/

/-- `IssueAnalyzer.find_function_by_line` loop body, carrying the best
candidate and its `end_line - start_line` range so far. -/
def ffblStep (file_path : Str) (line : Int) (acc : Option (RowDict × Int))
    (row : Str) : Option (RowDict × Int) :=
  if strIn file_path row then
    match csvSplit (pyStrip row) with
    | [fn, fl, st, fid, en, cid] =>
      match parseInt? st, parseInt? en with
      | some si, some ei =>
        if si ≤ line ∧ line ≤ ei then
          if strIn file_path fl then
            match acc with
            | none => some (mkDict ftKeys [fn, fl, st, fid, en, cid], ei - si)
            | some (b, sm) =>
              if ei - si < sm then
                some (mkDict ftKeys [fn, fl, st, fid, en, cid], ei - si)
              else some (b, sm)
          else acc
        else acc
      | _, _ => acc
    | _ => acc
  else acc

/-- `IssueAnalyzer.find_function_by_line`: scan all rows keeping the smallest
containing function; rows that are malformed (not 6 fields, non-integer
lines) are skipped. -/
def find_function_by_line (rows : List Str) (file_path : Str) (line : Int) :
    Option RowDict :=
  ((rows.foldl (ffblStep file_path line) none).map (fun p => p.1))

/-- Whether a raw export row is a well-formed containing candidate for
`find_function_by_line` (6 fields, integer lines, containing range, matching
file field). -/
def ffblMatchB (file_path : Str) (line : Int) (row : Str) : Bool :=
  match csvSplit (pyStrip row) with
  | [_, fl, st, _, en, _] =>
    match parseInt? st, parseInt? en with
    | some si, some ei =>
      decide (si ≤ line) && decide (line ≤ ei) && strIn file_path fl
    | _, _ => false
  | _ => false

/-- The `end_line - start_line` range of a candidate row (0 for non-candidates). -/
def ffblSize (row : Str) : Int :=
  match csvSplit (pyStrip row) with
  | [_, _, st, _, en, _] =>
    match parseInt? st, parseInt? en with
    | some si, some ei => ei - si
    | _, _ => 0
  | _ => 0

/-- The dict `find_function_by_line` builds from a row. -/
def ffblDict (row : Str) : RowDict := mkDict ftKeys (csvSplit (pyStrip row))

/-- The structured form of one bracketed location reference
`[["label"|"scheme?/path:line:start:endline:endoff"]]` (the regex groups of
`process_issue_type`'s bracket pattern; the third number is uncaptured in
the source but needed to reconstruct the matched text). -/
structure BRef where
  label : Str
  path_type : Option Str
  file_path : Str
  line_number : Str
  start_offset : Str
  end_line : Str
  end_offset : Str
deriving DecidableEq

/-- Consume an expected literal prefix. -/
def expectLit (lit : Str) (s : Str) : Option Str :=
  if lit.isPrefixOf s then some (s.drop lit.length) else none

/-- Consume one expected character. -/
def expectChar (c : Char) : Str → Option Str
  | x :: xs => if x = c then some xs else none
  | [] => none

/-- Consume a nonempty maximal digit run (`(\d+)` followed by a non-digit). -/
def takeDigits (s : Str) : Option (Str × Str) :=
  let d := s.takeWhile Char.isDigit
  if d = [] then none else some (d, s.dropWhile Char.isDigit)

/-- Parse the numeric tail `:(\d+):(\d+):\d+:(\d+)` followed by the literal
quote-bracket-bracket closer. -/
def parseNums (s : Str) : Option ((Str × Str × Str × Str) × Str) :=
  match expectChar ':' s with
  | none => none
  | some s1 =>
    match takeDigits s1 with
    | none => none
    | some (n1, s2) =>
      match expectChar ':' s2 with
      | none => none
      | some s3 =>
        match takeDigits s3 with
        | none => none
        | some (n2, s4) =>
          match expectChar ':' s4 with
          | none => none
          | some s5 =>
            match takeDigits s5 with
            | none => none
            | some (n3, s6) =>
              match expectChar ':' s6 with
              | none => none
              | some s7 =>
                match takeDigits s7 with
                | none => none
                | some (n4, s8) =>
                  match expectLit ("\x22]]".data) s8 with
                  | none => none
                  | some s9 => some ((n1, n2, n3, n4), s9)

/-- Lazy extension of the `(/.*?)` path group: stop as soon as the numeric
tail parses; `.` does not match a newline. -/
def parsePathGo (acc : Str) : Str → Option ((Str × (Str × Str × Str × Str)) × Str)
  | [] =>
    match parseNums [] with
    | some (ns, rest) => some ((acc, ns), rest)
    | none => none
  | c :: cs =>
    match parseNums (c :: cs) with
    | some (ns, rest) => some ((acc, ns), rest)
    | none => if c = '\n' then none else parsePathGo (acc ++ [c]) cs

/-- Parse the `(/.*?)` group (must start with a slash). -/
def parsePath : Str → Option ((Str × (Str × Str × Str × Str)) × Str)
  | '/' :: rest => parsePathGo ['/'] rest
  | _ => none

/-- Parse the optional `((?:relative://|file://))?` scheme group. -/
def parseScheme (s : Str) : Option Str × Str :=
  match expectLit ("relative://".data) s with
  | some rest => (some ("relative://".data), rest)
  | none =>
    match expectLit ("file://".data) s with
    | some rest => (some ("file://".data), rest)
    | none => (none, s)

/-- Parse everything after the label group: the `"|"` separator, the optional
scheme, the lazy path, and the numeric tail. -/
def parseAfterLabel (s : Str) :
    Option ((Option Str × Str × (Str × Str × Str × Str)) × Str) :=
  match expectLit ("\x22|\x22".data) s with
  | none => none
  | some s1 =>
    let sch := parseScheme s1
    match parsePath sch.2 with
    | none => none
    | some (pp, rest) => some ((sch.1, pp.1, pp.2), rest)

/-- Lazy extension of the label group `(.*?)`: try to close at each position,
else absorb one more (non-newline) character. -/
def parseLabel (acc : Str) : Str → Option (BRef × Str)
  | [] =>
    match parseAfterLabel [] with
    | some ((sch, path, n1, n2, n3, n4), rest) =>
      some (⟨acc, sch, path, n1, n2, n3, n4⟩, rest)
    | none => none
  | c :: cs =>
    match parseAfterLabel (c :: cs) with
    | some ((sch, path, n1, n2, n3, n4), rest) =>
      some (⟨acc, sch, path, n1, n2, n3, n4⟩, rest)
    | none => if c = '\n' then none else parseLabel (acc ++ [c]) cs

/-- Try to match the full bracket-reference pattern at the start of `s`,
returning the parsed reference and the remaining text. -/
def matchRefAt (s : Str) : Option (BRef × Str) :=
  match expectLit ("[[\x22".data) s with
  | some s1 => parseLabel [] s1
  | none => none

/-- Count of pattern matches found by the `re.sub` scan (left to right,
non-overlapping), with an explicit fuel argument (one unit per scan step;
`fuel > length` always suffices since every step consumes a character). -/
def countRefsGo : Nat → Str → Nat
  | 0, _ => 0
  | fuel + 1, s =>
    match matchRefAt s with
    | some pr => 1 + countRefsGo fuel pr.2
    | none =>
      match s with
      | [] => 0
      | _ :: cs => countRefsGo fuel cs

/-- Number of embedded bracket references in a finding message. -/
def countBracketRefs (s : Str) : Nat := countRefsGo (s.length + 1) s

/-- Decompose a message around its first (leftmost) bracket reference. -/
def splitFirstRef : Str → Option (Str × BRef × Str)
  | [] => none
  | c :: cs =>
    match matchRefAt (c :: cs) with
    | some pr => some ([], pr.1, pr.2)
    | none => (splitFirstRef cs).map (fun q => (c :: q.1, q.2.1, q.2.2))

/-- Resolution of a reference's path (`replacement` in
`create_bracket_reference_replacer`): relative paths are prefixed with the
source-root, other paths lose a leading slash. -/
def bracket_full_path (code_path : Str) (r : BRef) : Str :=
  if r.path_type == some ("relative://".data) then code_path ++ r.file_path
  else if ['/'].isPrefixOf r.file_path then r.file_path.drop 1 else r.file_path

/-- Python `os.path.split(p)[1]`: the component after the last slash. -/
def basename (p : Str) : Str := (p.reverse.takeWhile (fun c => c ≠ '/')).reverse

/-- The `replacement` callback of `create_bracket_reference_replacer`: read the
referenced file from the archive, slice the character span at the given
line, and render `label 'span' (basename:line)`. -/
def bracket_replacement (zipf : Str → Option Str) (code_path : Str) (r : BRef) :
    Except PyErr Str :=
  let full_path := bracket_full_path code_path r
  match zipf full_path with
  | none => Except.error PyErr.zipError
  | some code_text =>
    let code_lines := splitNl code_text
    match parseInt? r.line_number, parseInt? r.start_offset, parseInt? r.end_offset with
    | some ln, some so, some eo =>
      match pyIndex code_lines (ln - 1) with
      | none => Except.error PyErr.indexError
      | some the_line =>
        let snippet := pySlice the_line (so - 1) eo
        Except.ok (r.label ++ " \x27".data ++ snippet ++ "\x27 (".data ++
          basename r.file_path ++ [':'] ++ intToStr ln ++ [')'])
    | _, _, _ => Except.error PyErr.valueError

/-- The `re.sub(bracket_pattern, transform_func, issue[...])` call of
`process_issue_type`, with fuel as in `countRefsGo`: substitute each
non-overlapping leftmost match, propagating exceptions from the callback. -/
def rewriteMsgGo (zipf : Str → Option Str) (code_path : Str) :
    Nat → Str → Except PyErr Str
  | 0, s => Except.ok s
  | fuel + 1, s =>
    match matchRefAt s with
    | some pr =>
      match bracket_replacement zipf code_path pr.1 with
      | Except.error e => Except.error e
      | Except.ok rep =>
        match rewriteMsgGo zipf code_path fuel pr.2 with
        | Except.error e => Except.error e
        | Except.ok rest => Except.ok (rep ++ rest)
    | none =>
      match s with
      | [] => Except.ok []
      | c :: cs =>
        match rewriteMsgGo zipf code_path fuel cs with
        | Except.error e => Except.error e
        | Except.ok rest => Except.ok (c :: rest)

/-- Bracket-reference rewriting of a finding message. -/
def rewriteMessage (zipf : Str → Option Str) (code_path : Str) (s : Str) :
    Except PyErr Str :=
  rewriteMsgGo zipf code_path (s.length + 1) s

/-! ## Result Recorder (`src/utils/common_functions.py`, `src/vulnhalla.py`) -/

/-- `write_file_ascii`: the persisted bytes of `data.encode(ascii, ignore)` —
code points below 128 become single bytes, all others are dropped. -/
def write_file_ascii (data : Str) : List Nat :=
  (data.filter (fun c => c.toNat < 128)).map Char.toNat

/-- `IssueAnalyzer.save_raw_input_data`: the raw-request record is persisted
through `write_file_ascii` (the JSON assembly and path construction are
outside the model). -/
def save_raw_input_data (raw_data : Str) : List Nat := write_file_ascii raw_data

/-- The final-transcript write of `process_issue_type` (`<id>_final.json`),
also through `write_file_ascii`. -/
def save_final_transcript (gpt_result : Str) : List Nat := write_file_ascii gpt_result


/-- The invariant maintained by `find_function_by_line`'s scan: the accumulator
is `none` exactly when no processed row is a candidate, and otherwise holds
a candidate of minimal range among the processed rows. -/
def ffblInv (fp : Str) (line : Int) (Seen : Str → Prop)
    (acc : Option (RowDict × Int)) : Prop :=
  (acc = none ↔ ∀ r, Seen r → ffblMatchB fp line r = false) ∧
  (∀ b sm, acc = some (b, sm) →
    (∃ r, Seen r ∧ ffblMatchB fp line r = true ∧ b = ffblDict r ∧ sm = ffblSize r) ∧
    (∀ r, Seen r → ffblMatchB fp line r = true → sm ≤ ffblSize r))


/-- The candidate name a FunctionTree row offers to the name lookup (first
field, quotes removed). -/
def rowCand (row : Str) : Str := stripQuotes ((csvSplit row).headD [])

/-- Pure per-row decision of the name-lookup scan (specification form of
`gfbnScan`, compared against it below). -/
def gfbnRowF (fid q : Str) (ls : Bool) (row : Str) : Option RowDict :=
  if strIn fid row then
    if (rowCand row == q) || (ls && strIn q (rowCand row)) then
      some (mkDict ftKeys (csvSplit row))
    else none
  else none

/-- Pure form of one `get_function_by_name` phase (specification form of
`gfbnPhase`, compared against it below). -/
def gfbnPhasePure (rows : List Str) (q : Str) (ls : Bool) (ctx : List RowDict) :
    Option (RowDict × RowDict) :=
  ctx.findSome? fun cf =>
    match dget? cf kFunctionId with
    | some fid => (rows.findSome? (gfbnRowF fid q ls)).map (fun d => (d, cf))
    | none => none

/-- Whether some known-context record leads the scan to a row whose candidate
name equals the unqualified query exactly. -/
def scannedExactB (rows : List Str) (ctx : List RowDict) (q : Str) : Bool :=
  ctx.any fun cf => rows.any fun row =>
    (match dget? cf kFunctionId with
     | some fid => strIn fid row
     | none => false) && (rowCand row == q)

/-- Whether a name-lookup result is a returned row whose stored name equals
the query exactly. -/
def resultExactB (q : Str) : Except PyErr (Sum Str RowDict × Option RowDict) → Bool
  | Except.ok (Sum.inr d, _) => stripQuotes ((dget? d kFunctionName).getD []) == q
  | _ => false


/-- Whether a tool invocation is unrecognized by the dispatch chain: no
branch guard (known tool name plus its required argument) accepts it. -/
def unrecognizedB (tc : ToolCall) : Bool :=
  !((tc.name == "get_function_code".data &&
      (dget? tc.arguments ("function_name".data)).isSome)
    || tc.name == "get_caller_function".data
    || (tc.name == "get_macro".data && (dget? tc.arguments kMacroName).isSome)
    || (tc.name == "get_global_var".data && (dget? tc.arguments kGlobalVarName).isSome)
    || (tc.name == "get_class".data && (dget? tc.arguments ("object_name".data)).isSome))

/-- The reply turn an unrecognized invocation receives. -/
def mismatchReply (tc : ToolCall) : Msg := toolReply tc (mismatchStr tc.name tc.arguments)

/-! ## Supporting lemmas on the string model -/

theorem strIn_iff {n h : Str} : strIn n h = true ↔ ∃ u v, h = u ++ n ++ v := by
  unfold strIn
  rw [List.any_eq_true]
  constructor
  · rintro ⟨t, ht, hp⟩
    rw [List.mem_tails] at ht
    obtain ⟨u, hu⟩ := ht
    obtain ⟨v, hv⟩ := List.isPrefixOf_iff_prefix.mp hp
    exact ⟨u, v, by rw [← hu, ← hv, List.append_assoc]⟩
  · rintro ⟨u, v, rfl⟩
    refine ⟨n ++ v, ?_, ?_⟩
    · rw [List.mem_tails]
      exact ⟨u, (List.append_assoc u n v).symm⟩
    · rw [List.isPrefixOf_iff_prefix]
      exact ⟨v, rfl⟩

theorem strIn_parts (n u v : Str) : strIn n (u ++ n ++ v) = true :=
  strIn_iff.mpr ⟨u, v, rfl⟩

theorem strIn_nil_left (h : Str) : strIn [] h = true :=
  strIn_iff.mpr ⟨[], h, rfl⟩

theorem strIn_trans {a b c : Str} (h1 : strIn a b = true) (h2 : strIn b c = true) :
    strIn a c = true := by
  obtain ⟨u, v, rfl⟩ := strIn_iff.mp h1
  obtain ⟨u2, v2, rfl⟩ := strIn_iff.mp h2
  refine strIn_iff.mpr ⟨u2 ++ u, v ++ v2, by simp [List.append_assoc]⟩

theorem strIn_cons {a r : Str} (c : Char) (h : strIn a r = true) :
    strIn a (c :: r) = true := by
  obtain ⟨u, v, rfl⟩ := strIn_iff.mp h
  exact strIn_iff.mpr ⟨c :: u, v, rfl⟩

theorem csvSplit_ne_nil (s : Str) : csvSplit s ≠ [] := by
  cases s with
  | nil => simp [csvSplit]
  | cons c rest =>
    unfold csvSplit
    split
    · simp
    · split <;> simp

theorem csvSplit_head_decomp (s : Str) :
    ∃ v, s = (csvSplit s).headD [] ++ v := by
  induction s with
  | nil => exact ⟨[], by simp [csvSplit]⟩
  | cons c rest ih =>
    unfold csvSplit
    split
    · exact ⟨c :: rest, by simp⟩
    · cases hcs : csvSplit rest with
      | nil => exact absurd hcs (csvSplit_ne_nil rest)
      | cons y t =>
        obtain ⟨v, hv⟩ := ih
        rw [hcs] at hv
        simp only [List.headD_cons] at hv ⊢
        exact ⟨v, by rw [hv]; simp⟩

theorem csvSplit_mem_strIn {f s : Str} (hmem : f ∈ csvSplit s) :
    strIn f s = true := by
  induction s with
  | nil =>
    simp only [csvSplit, List.mem_singleton] at hmem
    subst hmem
    exact strIn_nil_left []
  | cons c rest ih =>
    unfold csvSplit at hmem
    split at hmem
    · rcases List.mem_cons.mp hmem with hf | hf
      · subst hf
        exact strIn_nil_left _
      · exact strIn_cons c (ih hf)
    · cases hcs : csvSplit rest with
      | nil => exact absurd hcs (csvSplit_ne_nil rest)
      | cons y t =>
        rw [hcs] at hmem
        rcases List.mem_cons.mp hmem with hf | hf
        · subst hf
          obtain ⟨v, hv⟩ := csvSplit_head_decomp rest
          rw [hcs] at hv
          simp only [List.headD_cons] at hv
          refine strIn_iff.mpr ⟨[], v, ?_⟩
          simp [hv]
        · have : f ∈ csvSplit rest := by rw [hcs]; exact List.mem_cons_of_mem y hf
          exact strIn_cons c (ih this)

theorem pyStrip_decomp (s : Str) : ∃ u v, s = u ++ pyStrip s ++ v := by
  refine ⟨s.takeWhile Char.isWhitespace,
    ((s.dropWhile Char.isWhitespace).reverse.takeWhile Char.isWhitespace).reverse, ?_⟩
  have h1 : s.takeWhile Char.isWhitespace ++ s.dropWhile Char.isWhitespace = s :=
    List.takeWhile_append_dropWhile Char.isWhitespace s
  have h2 :
      (s.dropWhile Char.isWhitespace).reverse.takeWhile Char.isWhitespace ++
        (s.dropWhile Char.isWhitespace).reverse.dropWhile Char.isWhitespace =
        (s.dropWhile Char.isWhitespace).reverse :=
    List.takeWhile_append_dropWhile Char.isWhitespace (s.dropWhile Char.isWhitespace).reverse
  have h3 : s.dropWhile Char.isWhitespace =
      pyStrip s ++
        ((s.dropWhile Char.isWhitespace).reverse.takeWhile Char.isWhitespace).reverse := by
    unfold pyStrip
    conv_lhs => rw [← List.reverse_reverse (s.dropWhile Char.isWhitespace), ← h2]
    rw [List.reverse_append]
  conv_lhs => rw [← h1, h3]
  rw [List.append_assoc]

theorem strIn_pyStrip {a s : Str} (h : strIn a (pyStrip s) = true) :
    strIn a s = true := by
  obtain ⟨u, v, hs⟩ := pyStrip_decomp s
  have hps : strIn (pyStrip s) (u ++ pyStrip s ++ v) = true := strIn_parts (pyStrip s) u v
  rw [← hs] at hps
  exact strIn_trans h hps

/-! ## C10 -/

/-- C10: the result recorder persists only the ASCII characters of its input.
Both persistence entry points are `write_file_ascii`; a character with code
point at least 128 contributes nothing to the persisted bytes, and an
all-ASCII input is persisted byte-for-byte. -/
theorem c10_ascii_persistence (s s1 s2 : Str) (c : Char) :
    save_raw_input_data s = write_file_ascii s ∧
    save_final_transcript s = write_file_ascii s ∧
    (128 ≤ c.toNat →
      write_file_ascii (s1 ++ c :: s2) = write_file_ascii (s1 ++ s2)) ∧
    ((∀ x ∈ s, x.toNat < 128) → write_file_ascii s = s.map Char.toNat) := by
  refine ⟨rfl, rfl, ?_, ?_⟩
  · intro hc
    unfold write_file_ascii
    rw [List.filter_append, List.filter_append, List.filter_cons]
    simp [Nat.not_lt.mpr hc]
  · intro hall
    unfold write_file_ascii
    rw [List.filter_eq_self.mpr]
    intro a ha
    exact decide_eq_true (hall a ha)

/-- C10 witness: a concrete non-ASCII character is dropped and a concrete
ASCII string is persisted byte-for-byte. -/
theorem c10_ascii_persistence_witness :
    write_file_ascii ("ab".data ++ 'é' :: "cd".data) =
      write_file_ascii ("ab".data ++ "cd".data) ∧
    write_file_ascii ("abcd".data) = ("abcd".data).map Char.toNat := by
  constructor
  · exact (c10_ascii_persistence "abcd".data "ab".data "cd".data 'é').2.2.1 (by decide)
  · exact (c10_ascii_persistence "abcd".data "ab".data "cd".data 'é').2.2.2 (by decide)

/-! ## C3 -/

theorem slice_numbering {α β : Type} (dflt : α) (g : Nat → α → β)
    (l : List α) (a b : Nat) (hab : a ≤ b) (hb : b ≤ l.length) :
    ((l.take b).drop a).enum.map (fun p => g p.1 p.2) =
      (List.range (b - a)).map (fun i => g i (l.getD (a + i) dflt)) := by
  apply List.ext_getElem
  · simp only [List.length_map, List.enum_length, List.length_drop,
      List.length_take, List.length_range]
    omega
  · intro i h1 h2
    have hlt : i < b - a := by
      simpa using h2
    have hgood : a + i < l.length := by omega
    have htk : i < (l.take b).length - a := by
      simp only [List.length_take]
      omega
    simp only [List.getElem_map, List.getElem_enum, List.getElem_range]
    congr 1
    rw [List.getElem_drop]
    rw [List.getElem_take]
    rw [List.getD_eq_getElem]

/-- C3 (amended): for a well-formed function record whose file is present in
the archive, `1 ≤ start_line ≤ end_line ≤` number of lines, the snippet
extractor returns, after the `file:` header, exactly
`end_line + 1 - start_line` lines (11 for start 5, end 15), and the `i`-th
extracted line is source line `start_line + i` (1-based) prefixed with
`start_line - 1 + i` — i.e. each line is prefixed with its 1-based line
number minus one, matching the `start_line - 1` location phrase built during
prompt assembly, not the raw CSV numbering. -/
theorem c3_snippet_numbering (zipf : Str → Option Str) (d : RowDict)
    (f0 s0 e0 content : Str) (start_line end_line : Int)
    (hf : dget? d kFile = some f0)
    (hz : zipf ((stripQuotes f0).drop 1) = some content)
    (hs : dget? d kStartLine = some s0) (hsi : parseInt? s0 = some start_line)
    (he : dget? d kEndLine = some e0) (hei : parseInt? e0 = some end_line)
    (h1 : 1 ≤ start_line) (h2 : start_line ≤ end_line)
    (h3 : end_line ≤ ((splitNl content).length : Int)) :
    (pySlice (splitNl content) (start_line - 1) end_line).length =
        end_line.toNat + 1 - start_line.toNat ∧
    extract_function_from_file zipf (Sum.inr d) =
      Except.ok ("file: ".data ++ (stripQuotes f0).drop 1 ++ ['\n'] ++
        joinNl ((List.range (end_line.toNat + 1 - start_line.toNat)).map
          (fun (i : Nat) => intToStr (start_line - 1 + (i : Int)) ++ ": ".data ++
            (splitNl content).getD ((start_line - 1).toNat + i) []))) := by
  have hslice : pySlice (splitNl content) (start_line - 1) end_line =
      ((splitNl content).take end_line.toNat).drop (start_line - 1).toNat := by
    simp only [pySlice]
    rw [if_neg (show ¬(start_line - 1 < 0) by omega),
        if_neg (show ¬(end_line < 0) by omega),
        min_eq_left (show start_line - 1 ≤ ((splitNl content).length : Int) by omega),
        min_eq_left h3]
  constructor
  · rw [hslice]
    simp only [List.length_drop, List.length_take]
    omega
  · simp only [extract_function_from_file, hf, hz, hs, hsi, he, hei, hslice]
    have hsn := slice_numbering ([] : Str)
      (fun i t => intToStr (start_line - 1 + (i : Int)) ++ ": ".data ++ t)
      (splitNl content) (start_line - 1).toNat end_line.toNat
      (by omega) (by omega)
    have hn : end_line.toNat - (start_line - 1).toNat =
        end_line.toNat + 1 - start_line.toNat := by omega
    rw [hn] at hsn
    exact congrArg (fun x => Except.ok ("file: ".data ++ (stripQuotes f0).drop 1 ++
      ['\n'] ++ joinNl x)) hsn

/-- C3 counterexample: a record with start_line 5 and end_line 15 over a
15-line file yields, after the header, 11 lines whose prefixes run from
`4:` to `14:` — the first snippet line is `4: l5`, not `5: l5` as the claim
states. -/
theorem c3_prefix_counterexample :
    extract_function_from_file
      (fun p => if p == ("a.c".data) then
        some (("l1\nl2\nl3\nl4\nl5\nl6\nl7\nl8\nl9\nl10\nl11\nl12\nl13\nl14\nl15").data)
       else none)
      (Sum.inr (mkDict ftKeys ["f".data, "/a.c".data, "5".data, "7".data, "15".data, "0".data])) =
      Except.ok (("file: a.c\n4: l5\n5: l6\n6: l7\n7: l8\n8: l9\n9: l10\n10: l11\n11: l12\n12: l13\n13: l14\n14: l15").data) ∧
    (splitNl (("file: a.c\n4: l5\n5: l6\n6: l7\n7: l8\n8: l9\n9: l10\n10: l11\n11: l12\n12: l13\n13: l14\n14: l15").data)).length = 12 ∧
    (splitNl (("file: a.c\n4: l5\n5: l6\n6: l7\n7: l8\n8: l9\n9: l10\n10: l11\n11: l12\n12: l13\n13: l14\n14: l15").data)).get? 1 =
      some ("4: l5".data) ∧
    ¬ ((splitNl (("file: a.c\n4: l5\n5: l6\n6: l7\n7: l8\n8: l9\n9: l10\n10: l11\n11: l12\n12: l13\n13: l14\n14: l15").data)).get? 1 =
      some ("5: l5".data)) := by
  refine ⟨rfl, rfl, rfl, by decide⟩

/-- C3 witness: the amended theorem applied to the concrete start 5 / end 15
record over a 15-line archived file. -/
theorem c3_snippet_numbering_witness :
    (pySlice (splitNl (("l1\nl2\nl3\nl4\nl5\nl6\nl7\nl8\nl9\nl10\nl11\nl12\nl13\nl14\nl15").data)) ((5 : Int) - 1) (15 : Int)).length =
        (15 : Int).toNat + 1 - (5 : Int).toNat ∧
    extract_function_from_file
      (fun p => if p == ("a.c".data) then
        some (("l1\nl2\nl3\nl4\nl5\nl6\nl7\nl8\nl9\nl10\nl11\nl12\nl13\nl14\nl15").data)
       else none)
      (Sum.inr (mkDict ftKeys ["f".data, "/a.c".data, "5".data, "7".data, "15".data, "0".data])) =
      Except.ok ("file: ".data ++ (stripQuotes ("/a.c".data)).drop 1 ++ ['\n'] ++
        joinNl ((List.range ((15 : Int).toNat + 1 - (5 : Int).toNat)).map
          (fun (i : Nat) => intToStr ((5 : Int) - 1 + (i : Int)) ++ ": ".data ++
            (splitNl (("l1\nl2\nl3\nl4\nl5\nl6\nl7\nl8\nl9\nl10\nl11\nl12\nl13\nl14\nl15").data)).getD (((5 : Int) - 1).toNat + i) []))) :=
  c3_snippet_numbering
    (fun p => if p == ("a.c".data) then
      some (("l1\nl2\nl3\nl4\nl5\nl6\nl7\nl8\nl9\nl10\nl11\nl12\nl13\nl14\nl15").data)
     else none)
    (mkDict ftKeys ["f".data, "/a.c".data, "5".data, "7".data, "15".data, "0".data])
    ("/a.c".data) ("5".data) ("15".data)
    (("l1\nl2\nl3\nl4\nl5\nl6\nl7\nl8\nl9\nl10\nl11\nl12\nl13\nl14\nl15").data)
    5 15 rfl rfl rfl rfl rfl rfl (by decide) (by decide) (by decide)

/-! ## C4 -/

theorem ffblMatchB_strIn {fp row : Str} {line : Int}
    (h : ffblMatchB fp line row = true) : strIn fp row = true := by
  unfold ffblMatchB at h
  rcases hcs : csvSplit (pyStrip row) with _ | ⟨a1, t1⟩
  · simp [hcs] at h
  rcases t1 with _ | ⟨fl, t2⟩
  · simp [hcs] at h
  rcases t2 with _ | ⟨st, t3⟩
  · simp [hcs] at h
  rcases t3 with _ | ⟨a2, t4⟩
  · simp [hcs] at h
  rcases t4 with _ | ⟨en, t5⟩
  · simp [hcs] at h
  rcases t5 with _ | ⟨a3, t6⟩
  · simp [hcs] at h
  rcases t6 with _ | ⟨x, t7⟩
  · simp only [hcs] at h
    rcases hsi : parseInt? st with _ | si
    · simp [hsi] at h
    rcases hei : parseInt? en with _ | ei
    · simp [hsi, hei] at h
    simp only [hsi, hei, Bool.and_eq_true, decide_eq_true_eq] at h
    have hfl : fl ∈ csvSplit (pyStrip row) := by
      rw [hcs]
      simp
    exact strIn_pyStrip (strIn_trans h.2 (csvSplit_mem_strIn hfl))
  · simp [hcs] at h

theorem ffblStep_eq (fp : Str) (line : Int) (acc : Option (RowDict × Int)) (row : Str) :
    ffblStep fp line acc row =
      if ffblMatchB fp line row = true then
        match acc with
        | none => some (ffblDict row, ffblSize row)
        | some (b, sm) =>
          if ffblSize row < sm then some (ffblDict row, ffblSize row)
          else some (b, sm)
      else acc := by
  by_cases hpre : strIn fp row = true
  · unfold ffblStep ffblMatchB ffblSize ffblDict
    rcases hcs : csvSplit (pyStrip row) with _ | ⟨a1, t1⟩
    · simp [hcs, hpre]
    rcases t1 with _ | ⟨fl, t2⟩
    · simp [hcs, hpre]
    rcases t2 with _ | ⟨st, t3⟩
    · simp [hcs, hpre]
    rcases t3 with _ | ⟨a2, t4⟩
    · simp [hcs, hpre]
    rcases t4 with _ | ⟨en, t5⟩
    · simp [hcs, hpre]
    rcases t5 with _ | ⟨a3, t6⟩
    · simp [hcs, hpre]
    rcases t6 with _ | ⟨x, t7⟩
    · rcases hsi : parseInt? st with _ | si
      · simp [hcs, hsi, hpre]
      rcases hei : parseInt? en with _ | ei
      · simp [hcs, hsi, hei, hpre]
      by_cases hord : si ≤ line ∧ line ≤ ei
      · by_cases hfl : strIn fp fl = true
        · rcases acc with _ | ⟨b, sm⟩
          · simp [hcs, hsi, hei, hpre, hord, hfl]
          · by_cases hlt : ei - si < sm
            · simp [hcs, hsi, hei, hpre, hord, hfl, hlt]
            · simp [hcs, hsi, hei, hpre, hord, hfl, hlt]
        · simp [hcs, hsi, hei, hpre, hord, hfl]
      · simp [hcs, hsi, hei, hpre, hord]
    · simp [hcs, hpre]
  · have hm : ffblMatchB fp line row = false := by
      cases hmb : ffblMatchB fp line row
      · rfl
      · exact absurd (ffblMatchB_strIn hmb) hpre
    simp [ffblStep, hpre, hm]


theorem ffblInv_congr {fp : Str} {line : Int} {S1 S2 : Str → Prop}
    {acc : Option (RowDict × Int)} (hiff : ∀ r, S1 r ↔ S2 r)
    (h : ffblInv fp line S1 acc) : ffblInv fp line S2 acc := by
  obtain ⟨h1, h2⟩ := h
  constructor
  · constructor
    · intro ha r hr
      exact h1.mp ha r ((hiff r).mpr hr)
    · intro hall
      exact h1.mpr (fun r hr => hall r ((hiff r).mp hr))
  · intro b sm heq
    obtain ⟨⟨r, hr, hm, hb, hsm⟩, hmin⟩ := h2 b sm heq
    exact ⟨⟨r, (hiff r).mp hr, hm, hb, hsm⟩,
      fun r2 hr2 hm2 => hmin r2 ((hiff r2).mpr hr2) hm2⟩

theorem ffblInv_step (fp : Str) (line : Int) (Seen : Str → Prop)
    (acc : Option (RowDict × Int)) (row : Str)
    (h : ffblInv fp line Seen acc) :
    ffblInv fp line (fun r => Seen r ∨ r = row) (ffblStep fp line acc row) := by
  obtain ⟨h1, h2⟩ := h
  rw [ffblStep_eq]
  by_cases hm : ffblMatchB fp line row = true
  · rw [if_pos hm]
    rcases hacc : acc with _ | ⟨b, sm⟩
    · change ffblInv fp line _ (some (ffblDict row, ffblSize row))
      constructor
      · constructor
        · intro hco
          exact absurd hco (by simp)
        · intro hall
          exact absurd (hall row (Or.inr rfl)) (by simp [hm])
      · intro b2 sm2 heq
        simp only [Option.some.injEq, Prod.mk.injEq] at heq
        obtain ⟨hb2, hsm2⟩ := heq
        refine ⟨⟨row, Or.inr rfl, hm, hb2.symm, hsm2.symm⟩, ?_⟩
        intro r2 hr2 hm2
        rcases hr2 with hr2 | rfl
        · exact absurd hm2 (by simp [h1.mp hacc r2 hr2])
        · omega
    · change ffblInv fp line _
        (if ffblSize row < sm then some (ffblDict row, ffblSize row) else some (b, sm))
      by_cases hlt : ffblSize row < sm
      · rw [if_pos hlt]
        constructor
        · constructor
          · intro hco
            exact absurd hco (by simp)
          · intro hall
            exact absurd (hall row (Or.inr rfl)) (by simp [hm])
        · intro b2 sm2 heq
          simp only [Option.some.injEq, Prod.mk.injEq] at heq
          obtain ⟨hb2, hsm2⟩ := heq
          refine ⟨⟨row, Or.inr rfl, hm, hb2.symm, hsm2.symm⟩, ?_⟩
          intro r2 hr2 hm2
          rcases hr2 with hr2 | rfl
          · have := (h2 b sm hacc).2 r2 hr2 hm2
            omega
          · omega
      · rw [if_neg hlt]
        obtain ⟨⟨r, hr, hmr, hbr, hsmr⟩, hmin⟩ := h2 b sm hacc
        constructor
        · constructor
          · intro hco
            exact absurd hco (by simp)
          · intro hall
            exact absurd (hall row (Or.inr rfl)) (by simp [hm])
        · intro b2 sm2 heq
          simp only [Option.some.injEq, Prod.mk.injEq] at heq
          obtain ⟨hb2, hsm2⟩ := heq
          subst hb2
          subst hsm2
          refine ⟨⟨r, Or.inl hr, hmr, hbr, hsmr⟩, ?_⟩
          intro r2 hr2 hm2
          rcases hr2 with hr2 | rfl
          · exact hmin r2 hr2 hm2
          · omega
  · rw [if_neg hm]
    have hmf : ffblMatchB fp line row = false := by
      cases hmb : ffblMatchB fp line row
      · rfl
      · exact absurd hmb hm
    constructor
    · constructor
      · intro ha r hr
        rcases hr with hr | rfl
        · exact h1.mp ha r hr
        · exact hmf
      · intro hall
        exact h1.mpr (fun r hr => hall r (Or.inl hr))
    · intro b sm heq
      obtain ⟨⟨r, hr, hmr, hbr, hsmr⟩, hmin⟩ := h2 b sm heq
      refine ⟨⟨r, Or.inl hr, hmr, hbr, hsmr⟩, ?_⟩
      intro r2 hr2 hm2
      rcases hr2 with hr2 | rfl
      · exact hmin r2 hr2 hm2
      · exact absurd hm2 (by simp [hmf])

theorem ffbl_fold_inv (fp : Str) (line : Int) :
    ∀ (rows : List Str) (acc : Option (RowDict × Int)) (Seen : Str → Prop),
      ffblInv fp line Seen acc →
      ffblInv fp line (fun r => Seen r ∨ r ∈ rows)
        (rows.foldl (ffblStep fp line) acc) := by
  intro rows
  induction rows with
  | nil =>
    intro acc Seen h
    simpa using ffblInv_congr (by simp) h
  | cons row rest ih =>
    intro acc Seen h
    rw [List.foldl_cons]
    have h2 := ih (ffblStep fp line acc row) (fun r => Seen r ∨ r = row)
      (ffblInv_step fp line Seen acc row h)
    refine ffblInv_congr ?_ h2
    intro r
    simp [List.mem_cons]
    tauto

/-- C4: `find_function_by_line` returns `none` exactly when no well-formed
export row matches the file and contains the line; and any returned dict
comes from a matching row of minimal `end_line - start_line` range among all
matching rows. -/
theorem c4_smallest_enclosing (rows : List Str) (file_path : Str) (line : Int) :
    (find_function_by_line rows file_path line = none ↔
      ∀ r ∈ rows, ffblMatchB file_path line r = false) ∧
    (∀ d, find_function_by_line rows file_path line = some d →
      ∃ r ∈ rows, ffblMatchB file_path line r = true ∧ d = ffblDict r ∧
        ∀ r2 ∈ rows, ffblMatchB file_path line r2 = true →
          ffblSize r ≤ ffblSize r2) := by
  have hbase : ffblInv file_path line (fun _ => False) none := by
    constructor
    · constructor
      · intro _ r hr
        exact hr.elim
      · intro _
        rfl
    · intro b sm heq
      exact absurd heq (by simp)
  have hinv2 : ffblInv file_path line (fun r => r ∈ rows)
      (rows.foldl (ffblStep file_path line) none) :=
    ffblInv_congr (by intro r; simp)
      (ffbl_fold_inv file_path line rows none (fun _ => False) hbase)
  obtain ⟨h1, h2⟩ := hinv2
  constructor
  · constructor
    · intro heq r hr
      have hfn : rows.foldl (ffblStep file_path line) none = none := by
        rcases hfold : rows.foldl (ffblStep file_path line) none with _ | p
        · rfl
        · unfold find_function_by_line at heq
          rw [hfold] at heq
          simp at heq
      exact h1.mp hfn r hr
    · intro hall
      unfold find_function_by_line
      rw [h1.mpr hall]
      rfl
  · intro d heq
    unfold find_function_by_line at heq
    rcases hfold : rows.foldl (ffblStep file_path line) none with _ | ⟨b, sm⟩
    · rw [hfold] at heq
      simp at heq
    · rw [hfold] at heq
      simp only [Option.map_some'] at heq
      have hbd : b = d := by
        injection heq
      subst hbd
      obtain ⟨⟨r, hr, hmr, hbr, hsmr⟩, hmin⟩ := h2 b sm hfold
      refine ⟨r, hr, hmr, hbr, ?_⟩
      intro r2 hr2 hm2
      have := hmin r2 hr2 hm2
      omega

/-- C4 witness: with two containing rows of ranges 17 and 4, the smaller
enclosing function row is returned and is minimal. -/
theorem c4_smallest_enclosing_witness :
    find_function_by_line ["f,/a.c,3,1,20,0\n".data, "g,/a.c,8,2,12,0\n".data]
        ("/a.c".data) 10 = some (ffblDict ("g,/a.c,8,2,12,0\n".data)) ∧
    (∃ r ∈ ["f,/a.c,3,1,20,0\n".data, "g,/a.c,8,2,12,0\n".data],
      ffblMatchB ("/a.c".data) 10 r = true ∧
      ffblDict ("g,/a.c,8,2,12,0\n".data) = ffblDict r ∧
      ∀ r2 ∈ ["f,/a.c,3,1,20,0\n".data, "g,/a.c,8,2,12,0\n".data],
        ffblMatchB ("/a.c".data) 10 r2 = true →
          ffblSize r ≤ ffblSize r2) :=
  ⟨rfl,
   (c4_smallest_enclosing ["f,/a.c,3,1,20,0\n".data, "g,/a.c,8,2,12,0\n".data]
      ("/a.c".data) 10).2 (ffblDict ("g,/a.c,8,2,12,0\n".data)) rfl⟩

/-! ## C5 and C6 -/

theorem dget_zip_ft_head (f : Str) (fs : List Str) :
    dget? (mkDict ftKeys (f :: fs)) kFunctionName = some f := rfl

theorem rowDict_name (row : Str) :
    dget? (mkDict ftKeys (csvSplit row)) kFunctionName =
      some ((csvSplit row).headD []) := by
  rcases hfe : csvSplit row with _ | ⟨f, fs⟩
  · exact absurd hfe (csvSplit_ne_nil row)
  · rw [List.headD_cons]
    exact dget_zip_ft_head f fs

theorem gfbnScan_eq_pure (cf : RowDict) (q : Str) (ls : Bool) (fid : Str)
    (h : dget? cf kFunctionId = some fid) (rows : List Str) :
    gfbnScan cf q ls rows = Except.ok (rows.findSome? (gfbnRowF fid q ls)) := by
  induction rows with
  | nil => simp [gfbnScan]
  | cons row rest ih =>
    rcases hfe : csvSplit row with _ | ⟨f, fs⟩
    · exact absurd hfe (csvSplit_ne_nil row)
    by_cases hin : strIn fid row = true
    · by_cases hcond : (stripQuotes f == q || (ls && strIn q (stripQuotes f))) = true
      · simp [gfbnScan, h, hin, hfe, List.findSome?_cons, gfbnRowF, rowCand, hcond]
      · have hcf : (stripQuotes f == q || (ls && strIn q (stripQuotes f))) = false :=
          Bool.eq_false_iff.mpr hcond
        simp [gfbnScan, h, hin, hfe, List.findSome?_cons, gfbnRowF, rowCand, hcf, ih]
    · have hinf : strIn fid row = false := Bool.eq_false_iff.mpr hin
      simp [gfbnScan, h, hinf, List.findSome?_cons, gfbnRowF, ih]

theorem gfbnPhase_eq_pure (rows : List Str) (q : Str) (ls : Bool)
    (ctx : List RowDict)
    (hW : ∀ cf ∈ ctx, (dget? cf kFunctionId).isSome = true) :
    gfbnPhase (some rows) q ls ctx = Except.ok (gfbnPhasePure rows q ls ctx) := by
  induction ctx with
  | nil => simp [gfbnPhase, gfbnPhasePure]
  | cons cf rest ih =>
    have hcf := hW cf (List.mem_cons_self cf rest)
    rcases hfid : dget? cf kFunctionId with _ | fid
    · rw [hfid] at hcf
      simp at hcf
    have hscan := gfbnScan_eq_pure cf q ls fid hfid rows
    have ihh := ih (fun c hc => hW c (List.mem_cons_of_mem cf hc))
    rcases hfs : rows.findSome? (gfbnRowF fid q ls) with _ | d
    · rw [hfs] at hscan
      simp only [gfbnPhase, hscan, ihh, gfbnPhasePure, List.findSome?_cons, hfid,
        hfs, Option.map_none']
    · rw [hfs] at hscan
      simp only [gfbnPhase, hscan, gfbnPhasePure, List.findSome?_cons, hfid, hfs,
        Option.map_some']

/-- C5: exact matching is attempted before fuzzy matching in
`get_function_by_name`.  If some scanned row (a row the known-context
restriction lets the scan reach) has a stored name equal to the query's
unqualified trailing component, the lookup returns a row whose name equals
that component exactly; and whenever a returned row matches only by
substring, the exact-match phase provably found nothing. -/
theorem c5_exact_before_fuzzy (rows : List Str) (ctx : List RowDict) (name : Str)
    (hW : ∀ cf ∈ ctx, (dget? cf kFunctionId).isSome = true) :
    (scannedExactB rows ctx (unqualify name) = true →
      resultExactB (unqualify name)
        (get_function_by_name (some rows) name ctx) = true) ∧
    (∀ d p, get_function_by_name (some rows) name ctx =
        Except.ok (Sum.inr d, p) →
      (stripQuotes ((dget? d kFunctionName).getD []) == unqualify name) = false →
      gfbnPhase (some rows) (unqualify name) false ctx = Except.ok none) := by
  have hp0 := gfbnPhase_eq_pure rows (unqualify name) false ctx hW
  have hsound : ∀ d cf, gfbnPhasePure rows (unqualify name) false ctx = some (d, cf) →
      stripQuotes ((dget? d kFunctionName).getD []) = unqualify name := by
    intro d cf hpure
    obtain ⟨c2, hc2, hf2⟩ := List.exists_of_findSome?_eq_some hpure
    rcases hfid : dget? c2 kFunctionId with _ | fid
    · simp only [hfid] at hf2
      exact Option.noConfusion hf2
    simp only [hfid] at hf2
    rcases hrs : rows.findSome? (gfbnRowF fid (unqualify name) false) with _ | d2
    · rw [hrs] at hf2
      simp at hf2
    rw [hrs] at hf2
    simp only [Option.map_some', Option.some.injEq, Prod.mk.injEq] at hf2
    obtain ⟨hd2, hcf2⟩ := hf2
    obtain ⟨r2, hr2, hfr2⟩ := List.exists_of_findSome?_eq_some hrs
    unfold gfbnRowF at hfr2
    by_cases hin2 : strIn fid r2 = true
    · rw [if_pos hin2] at hfr2
      by_cases hc : (rowCand r2 == unqualify name
          || (false && strIn (unqualify name) (rowCand r2))) = true
      · rw [if_pos hc] at hfr2
        simp only [Bool.or_eq_true, Bool.false_and, Bool.and_eq_true] at hc
        have hcq : rowCand r2 == unqualify name := by
          rcases hc with hc | hc
          · exact hc
          · exact absurd hc (by simp)
        have hdd : d = mkDict ftKeys (csvSplit r2) := by
          rw [← hd2]
          injection hfr2 with h5
          rw [h5]
        rw [hdd, rowDict_name]
        simp only [Option.getD_some]
        exact eq_of_beq hcq
      · rw [if_neg hc] at hfr2
        simp at hfr2
    · rw [if_neg hin2] at hfr2
      simp at hfr2
  constructor
  · intro hscan
    rcases hpure : gfbnPhasePure rows (unqualify name) false ctx with _ | ⟨d, cf⟩
    · exfalso
      simp only [scannedExactB, List.any_eq_true, Bool.and_eq_true] at hscan
      obtain ⟨cf0, hcf0, row0, hrow0, hmm, hcand⟩ := hscan
      rcases hfid0 : dget? cf0 kFunctionId with _ | fid0
      · simp only [hfid0] at hmm
        exact Bool.noConfusion hmm
      simp only [hfid0] at hmm
      have hnone := List.findSome?_eq_none_iff.mp hpure cf0 hcf0
      simp only [hfid0] at hnone
      rcases hrs0 : rows.findSome? (gfbnRowF fid0 (unqualify name) false) with _ | d0
      · have hr0 := List.findSome?_eq_none_iff.mp hrs0 row0 hrow0
        unfold gfbnRowF at hr0
        rw [if_pos hmm, if_pos (by simp [hcand])] at hr0
        simp at hr0
      · rw [hrs0] at hnone
        simp at hnone
    · have hphase : gfbnPhase (some rows) (unqualify name) false ctx =
          Except.ok (some (d, cf)) := by
        rw [hp0, hpure]
      simp only [get_function_by_name, hphase, resultExactB]
      exact beq_iff_eq.mpr (hsound d cf hpure)
  · intro d p hres hne
    rcases hpure : gfbnPhasePure rows (unqualify name) false ctx with _ | ⟨d0, cf0⟩
    · rw [hp0, hpure]
    · exfalso
      have hphase : gfbnPhase (some rows) (unqualify name) false ctx =
          Except.ok (some (d0, cf0)) := by
        rw [hp0, hpure]
      simp only [get_function_by_name, hphase] at hres
      simp only [Except.ok.injEq, Prod.mk.injEq] at hres
      obtain ⟨hsum, hpp⟩ := hres
      have hd0 : d0 = d := by
        injection hsum
      rw [← hd0] at hne
      rw [hsound d0 cf0 hpure] at hne
      simp at hne

theorem c5_exact_before_fuzzy_witness :
    scannedExactB ["\x22xfooy\x22,/b.c,1,10,2,0\n".data, "\x22foo\x22,/a.c,1,10,5,3\n".data]
      [mkDict ftKeys ["caller".data, "/c.c".data, "1".data, "10".data, "9".data, "0".data]]
      (unqualify ("Cls::foo".data)) = true ∧
    resultExactB (unqualify ("Cls::foo".data))
      (get_function_by_name
        (some ["\x22xfooy\x22,/b.c,1,10,2,0\n".data, "\x22foo\x22,/a.c,1,10,5,3\n".data])
        ("Cls::foo".data)
        [mkDict ftKeys ["caller".data, "/c.c".data, "1".data, "10".data, "9".data, "0".data]]) = true :=
  ⟨by decide,
   (c5_exact_before_fuzzy
     ["\x22xfooy\x22,/b.c,1,10,2,0\n".data, "\x22foo\x22,/a.c,1,10,5,3\n".data]
     [mkDict ftKeys ["caller".data, "/c.c".data, "1".data, "10".data, "9".data, "0".data]]
     ("Cls::foo".data) (by decide)).1 (by decide)⟩

/-- C6 (amended): the known-context restriction does change observable
behavior — rows are scanned only via the function_id of some known-context
record, so with an empty known-context list `get_function_by_name` always
returns the not-found message, whatever the export contains. -/
theorem c6_empty_context_not_found (tree? : Option (List Str)) (name : Str) :
    get_function_by_name tree? name [] =
      Except.ok (Sum.inl (gfbnErrMsg name), none) := rfl

/-- C6 counterexample: an export whose single row's unqualified name equals
the query exactly, yet with an empty known-context list the lookup returns
the not-found message instead of that row. -/
theorem c6_context_restriction_counterexample :
    rowCand ("\x22foo\x22,/a.c,1,10,5,3\n".data) = "foo".data ∧
    unqualify ("foo".data) = "foo".data ∧
    get_function_by_name (some ["\x22foo\x22,/a.c,1,10,5,3\n".data]) ("foo".data) [] =
      Except.ok (Sum.inl (gfbnErrMsg ("foo".data)), none) :=
  ⟨rfl, rfl, rfl⟩

/-! ## C7 -/

/-- C7: evaluation at the failing input.  With a readable export containing
no matching row and a caller reference of the form `a:b` (one colon,
non-numeric tail), the caller lookup raises ValueError from `int(...)` in
the file:line fallback instead of returning the not-found message, while
ordinary absence in the macro lookup is returned as data and only a missing
export raises the CodeQL error kind. -/
theorem c7_caller_valueerror_eval :
    get_caller_function (some ([] : List Str))
      (mkDict ftKeys ["f".data, "/a.c".data, "1".data, "9".data, "2".data, "a:b".data]) =
      Except.error PyErr.valueError ∧
    get_macro (some ([] : List Str)) ("FOO".data) =
      Except.ok (Sum.inl (macroErrMsg ("FOO".data))) ∧
    get_macro none ("FOO".data) = Except.error PyErr.codeQL :=
  ⟨rfl, rfl, rfl⟩

/-! ## C1, C2 and C8 -/

theorem runLoop_finished (db : DBFiles) (am : Str → Str → Str) :
    ∀ (resps : List ModelResp) (st : LoopSt) (m : List Msg) (f : Str),
      runLoop db am resps st = RunOut.finished m f →
      m.getLast? = some ⟨"assistant".data, some f, none, none, []⟩ ∧
      f ≠ [] ∧ hasStatusToken f = true := by
  intro resps
  induction resps with
  | nil =>
    intro st m f h
    simp [runLoop] at h
  | cons r rest ih =>
    intro st m f h
    rcases hstep : stepIter db am st r with ⟨m1, f1⟩ | ⟨st1⟩ | ⟨e⟩
    · simp only [runLoop, hstep] at h
      obtain ⟨hm, hf⟩ : m1 = m ∧ f1 = f := by
        constructor <;> injection h
      subst hm
      subst hf
      unfold stepIter at hstep
      by_cases htc : r.tool_calls = []
      · rw [if_pos htc] at hstep
        by_cases hcond : (r.content.getD [] ≠ [] ∧ hasStatusToken (r.content.getD []) = true)
        · rw [if_pos hcond] at hstep
          obtain ⟨hmsgs, hfin⟩ : st.messages ++
              [⟨"assistant".data, r.content, none, none, r.tool_calls⟩] = m1 ∧
              r.content.getD [] = f1 := by
            constructor <;> injection hstep
          obtain ⟨hne, htok⟩ := hcond
          have hcontent : r.content = some f1 := by
            rcases hx : r.content with _ | s
            · rw [hx] at hfin
              simp at hfin
              rw [hx, ← hfin] at hne
              simp at hne
            · rw [hx] at hfin
              simp at hfin
              rw [hfin]
          refine ⟨?_, ?_, ?_⟩
          · rw [← hmsgs, htc, hcontent]
            simp
          · exact hfin ▸ hne
          · exact hfin ▸ htok
        · rw [if_neg hcond] at hstep
          exact StepRes.noConfusion hstep
      · rw [if_neg htc] at hstep
        rcases hpt : processTools db am r.tool_calls st.all_functions
            st.current_function [] [] with e | q
        · simp only [hpt] at hstep
          exact StepRes.noConfusion hstep
        · simp only [hpt] at hstep
          exact StepRes.noConfusion hstep
    · simp only [runLoop, hstep] at h
      exact ih st1 m f h
    · simp only [runLoop, hstep] at h
      exact RunOut.noConfusion h

/-- C1 (amended): whenever `run_llm_security_analysis` terminates normally,
the last turn of the transcript is the assistant-authored turn whose
nonempty text contains AT LEAST one of the four taxonomy tokens; the
controller only checks membership of some token, so more than one may be
present. -/
theorem c1_terminal_turn_has_token (db : DBFiles) (am : Str → Str → Str)
    (prompt : Str) (cur : RowDict) (fns : List RowDict) (resps : List ModelResp)
    (m : List Msg) (f : Str)
    (h : run_llm_security_analysis db am prompt cur fns resps = RunOut.finished m f) :
    m.getLast? = some ⟨"assistant".data, some f, none, none, []⟩ ∧
    f ≠ [] ∧ hasStatusToken f = true :=
  runLoop_finished db am resps _ m f h

/-- C1 witness: a one-iteration run terminating on a 1337 reply. -/
theorem c1_terminal_turn_has_token_witness :
    (MESSAGES ++ ([⟨"user".data, some ("p".data), none, none, []⟩,
      ⟨"assistant".data, some ("status 1337 exploitable".data), none, none, []⟩] :
        List Msg)).getLast? =
      some (⟨"assistant".data, some ("status 1337 exploitable".data), none, none, []⟩ : Msg) ∧
    ("status 1337 exploitable".data) ≠ [] ∧
    hasStatusToken ("status 1337 exploitable".data) = true :=
  c1_terminal_turn_has_token ⟨none, none, none, none, fun _ => none⟩ (fun _ _ => [])
    ("p".data) [] [] [⟨some ("status 1337 exploitable".data), []⟩]
    (MESSAGES ++ ([⟨"user".data, some ("p".data), none, none, []⟩,
      ⟨"assistant".data, some ("status 1337 exploitable".data), none, none, []⟩] :
        List Msg))
    ("status 1337 exploitable".data) rfl

/-- C1 counterexample: a normally terminating run whose terminal assistant
turn contains two distinct taxonomy tokens (7331 and 3713), refuting
"never more than one". -/
theorem c1_two_tokens_counterexample :
    run_llm_security_analysis ⟨none, none, none, none, fun _ => none⟩ (fun _ _ => [])
      ("p".data) [] [] [⟨some ("7331 3713 benign".data), []⟩] =
      RunOut.finished
        (MESSAGES ++ ([⟨"user".data, some ("p".data), none, none, []⟩,
          ⟨"assistant".data, some ("7331 3713 benign".data), none, none, []⟩] :
            List Msg))
        ("7331 3713 benign".data) ∧
    countStatusTokens ("7331 3713 benign".data) = 2 :=
  ⟨rfl, rfl⟩

/-- C2: per-iteration tool-counter semantics of the conversation loop — the
counter increases by exactly one in an iteration whose model turn requested
at least one tool invocation (however many), is unchanged otherwise, is
monotonically non-decreasing, and once it has reached 6 after a tool
iteration the stop-warning system turn is the last transcript entry. -/
theorem c2_tool_counter_step (db : DBFiles) (am : Str → Str → Str)
    (st st2 : LoopSt) (r : ModelResp)
    (h : stepIter db am st r = StepRes.next st2) :
    st2.amount_of_tools =
      (if r.tool_calls = [] then st.amount_of_tools else st.amount_of_tools + 1) ∧
    st.amount_of_tools ≤ st2.amount_of_tools ∧
    (r.tool_calls ≠ [] → 6 ≤ st2.amount_of_tools →
      st2.messages.getLast? = some warnMsg) := by
  unfold stepIter at h
  by_cases htc : r.tool_calls = []
  · rw [if_pos htc] at h
    by_cases hcond : (r.content.getD [] ≠ [] ∧ hasStatusToken (r.content.getD []) = true)
    · rw [if_pos hcond] at h
      exact StepRes.noConfusion h
    · rw [if_neg hcond] at h
      injection h with h2
      subst h2
      refine ⟨?_, le_refl _, ?_⟩
      · rw [if_pos htc]
      · intro hne
        exact absurd htc hne
  · rw [if_neg htc] at h
    rcases hpt : processTools db am r.tool_calls st.all_functions
        st.current_function [] [] with e | ⟨tm, amsg, af, cu⟩
    · simp only [hpt] at h
      exact StepRes.noConfusion h
    · simp only [hpt] at h
      injection h with h2
      subst h2
      refine ⟨?_, ?_, ?_⟩
      · show st.amount_of_tools + 1 = _
        rw [if_neg htc]
      · show st.amount_of_tools ≤ st.amount_of_tools + 1
        omega
      · intro hne h6
        have h6b : 6 ≤ st.amount_of_tools + 1 := h6
        show (if 6 ≤ st.amount_of_tools + 1 then
            st.messages ++ [(⟨"assistant".data, r.content, none, none, r.tool_calls⟩ : Msg)]
              ++ tm ++ amsg ++ [warnMsg]
          else st.messages ++ [(⟨"assistant".data, r.content, none, none, r.tool_calls⟩ : Msg)]
              ++ tm ++ amsg).getLast? = some warnMsg
        rw [if_pos h6b]
        exact List.getLast?_concat _

/-- C2 witness: one iteration with two tool invocations at counter 5 —
the counter increments by one (not two) and the warning turn is appended. -/
theorem c2_tool_counter_step_witness :
    (⟨[⟨"assistant".data, some ("hmm".data), none, none,
         [⟨"1".data, "bogus".data, []⟩, ⟨"2".data, "get_macro".data, []⟩]⟩,
       toolReply ⟨"1".data, "bogus".data, []⟩ (mismatchStr ("bogus".data) []),
       toolReply ⟨"2".data, "get_macro".data, []⟩ (mismatchStr ("get_macro".data) []),
       warnMsg], [], [], 6⟩ : LoopSt).amount_of_tools =
      (if ((⟨some ("hmm".data),
          [⟨"1".data, "bogus".data, []⟩, ⟨"2".data, "get_macro".data, []⟩]⟩ :
            ModelResp)).tool_calls = [] then 5 else 5 + 1) ∧
    5 ≤ (⟨[⟨"assistant".data, some ("hmm".data), none, none,
         [⟨"1".data, "bogus".data, []⟩, ⟨"2".data, "get_macro".data, []⟩]⟩,
       toolReply ⟨"1".data, "bogus".data, []⟩ (mismatchStr ("bogus".data) []),
       toolReply ⟨"2".data, "get_macro".data, []⟩ (mismatchStr ("get_macro".data) []),
       warnMsg], [], [], 6⟩ : LoopSt).amount_of_tools ∧
    (⟨[⟨"assistant".data, some ("hmm".data), none, none,
         [⟨"1".data, "bogus".data, []⟩, ⟨"2".data, "get_macro".data, []⟩]⟩,
       toolReply ⟨"1".data, "bogus".data, []⟩ (mismatchStr ("bogus".data) []),
       toolReply ⟨"2".data, "get_macro".data, []⟩ (mismatchStr ("get_macro".data) []),
       warnMsg], [], [], 6⟩ : LoopSt).messages.getLast? = some warnMsg := by
  have h := c2_tool_counter_step ⟨none, none, none, none, fun _ => none⟩
    (fun _ _ => []) ⟨[], [], [], 5⟩
    ⟨[⟨"assistant".data, some ("hmm".data), none, none,
         [⟨"1".data, "bogus".data, []⟩, ⟨"2".data, "get_macro".data, []⟩]⟩,
       toolReply ⟨"1".data, "bogus".data, []⟩ (mismatchStr ("bogus".data) []),
       toolReply ⟨"2".data, "get_macro".data, []⟩ (mismatchStr ("get_macro".data) []),
       warnMsg], [], [], 6⟩
    ⟨some ("hmm".data),
       [⟨"1".data, "bogus".data, []⟩, ⟨"2".data, "get_macro".data, []⟩]⟩ rfl
  exact ⟨h.1, h.2.1, h.2.2 (by decide) (by decide)⟩


theorem dispatchTool_unrec (db : DBFiles) (am : Str → Str → Str)
    (allF : List RowDict) (cur : RowDict) (argMsgs : List Msg) (tc : ToolCall)
    (hu : unrecognizedB tc = true) :
    dispatchTool db am allF cur argMsgs tc =
      Except.ok (mismatchStr tc.name tc.arguments, allF, cur, argMsgs) := by
  simp only [unrecognizedB, Bool.not_eq_true', Bool.or_eq_false_iff,
    Bool.and_eq_false_iff] at hu
  obtain ⟨⟨⟨⟨h1, h2⟩, h3⟩, h4⟩, h5⟩ := hu
  unfold dispatchTool
  by_cases hn1 : (tc.name == "get_function_code".data) = true
  · have harg : (dget? tc.arguments ("function_name".data)).isSome = false := by
      rcases h1 with h1 | h1
      · rw [hn1] at h1
        exact Bool.noConfusion h1
      · exact h1
    rcases hd : dget? tc.arguments ("function_name".data) with _ | v
    · simp [hn1, hd]
    · rw [hd] at harg
      simp at harg
  · by_cases hn2 : (tc.name == "get_caller_function".data) = true
    · rw [hn2] at h2
      exact Bool.noConfusion h2
    · by_cases hn3 : (tc.name == "get_macro".data) = true
      · have harg : (dget? tc.arguments kMacroName).isSome = false := by
          rcases h3 with h3 | h3
          · rw [hn3] at h3
            exact Bool.noConfusion h3
          · exact h3
        rcases hd : dget? tc.arguments kMacroName with _ | v
        · simp [hn1, hn2, hn3, hd]
        · rw [hd] at harg
          simp at harg
      · by_cases hn4 : (tc.name == "get_global_var".data) = true
        · have harg : (dget? tc.arguments kGlobalVarName).isSome = false := by
            rcases h4 with h4 | h4
            · rw [hn4] at h4
              exact Bool.noConfusion h4
            · exact h4
          rcases hd : dget? tc.arguments kGlobalVarName with _ | v
          · simp [hn1, hn2, hn3, hn4, hd]
          · rw [hd] at harg
            simp at harg
        · by_cases hn5 : (tc.name == "get_class".data) = true
          · have harg : (dget? tc.arguments ("object_name".data)).isSome = false := by
              rcases h5 with h5 | h5
              · rw [hn5] at h5
                exact Bool.noConfusion h5
              · exact h5
            rcases hd : dget? tc.arguments ("object_name".data) with _ | v
            · simp [hn1, hn2, hn3, hn4, hn5, hd]
            · rw [hd] at harg
              simp at harg
          · simp [hn1, hn2, hn3, hn4, hn5]

theorem processTools_unrec (db : DBFiles) (am : Str → Str → Str) :
    ∀ (tcs : List ToolCall) (allF : List RowDict) (cur : RowDict)
      (toolMsgs argMsgs : List Msg),
      (∀ tc ∈ tcs, unrecognizedB tc = true) →
      processTools db am tcs allF cur toolMsgs argMsgs =
        Except.ok (toolMsgs ++ tcs.map mismatchReply, argMsgs, allF, cur) := by
  intro tcs
  induction tcs with
  | nil =>
    intro allF cur toolMsgs argMsgs hall
    simp [processTools]
  | cons tc rest ih =>
    intro allF cur toolMsgs argMsgs hall
    have hd := dispatchTool_unrec db am allF cur argMsgs tc
      (hall tc (List.mem_cons_self tc rest))
    have ihh := ih allF cur (toolMsgs ++ [toolReply tc (mismatchStr tc.name tc.arguments)])
      argMsgs (fun t ht => hall t (List.mem_cons_of_mem tc ht))
    simp only [processTools, hd, ihh, List.map_cons, mismatchReply]
    simp [List.append_assoc]

/-- C8: an iteration whose tool invocations all carry an unrecognized tool
name or miss a required argument does not abort the loop — each invocation
is dispatched to a `role="tool"` reply tied to its id explaining the
mismatch and inviting a retry, and the loop proceeds to the next iteration;
the known-function set and current function are unchanged. -/
theorem c8_unknown_tool_keeps_loop (db : DBFiles) (am : Str → Str → Str)
    (allF : List RowDict) (cur : RowDict) (argMsgs : List Msg) (tc : ToolCall)
    (st : LoopSt) (r : ModelResp) :
    (unrecognizedB tc = true →
      dispatchTool db am allF cur argMsgs tc =
        Except.ok (mismatchStr tc.name tc.arguments, allF, cur, argMsgs)) ∧
    (r.tool_calls ≠ [] → (∀ tc2 ∈ r.tool_calls, unrecognizedB tc2 = true) →
      stepIter db am st r = StepRes.next
        ⟨(st.messages ++ [⟨"assistant".data, r.content, none, none, r.tool_calls⟩]
            ++ r.tool_calls.map mismatchReply ++ []) ++
          (if 6 ≤ st.amount_of_tools + 1 then [warnMsg] else []),
         st.all_functions, st.current_function, st.amount_of_tools + 1⟩) := by
  constructor
  · exact dispatchTool_unrec db am allF cur argMsgs tc
  · intro hne hall
    unfold stepIter
    rw [if_neg hne]
    rw [processTools_unrec db am r.tool_calls st.all_functions st.current_function
      [] [] hall]
    by_cases h6 : 6 ≤ st.amount_of_tools + 1
    · simp [h6, List.append_assoc]
    · simp [h6, List.append_assoc]

/-- C8 witness: a single unknown tool request (`frobnicate`) produces the
mismatch reply tied to its id and the loop proceeds. -/
theorem c8_unknown_tool_keeps_loop_witness :
    dispatchTool ⟨none, none, none, none, fun _ => none⟩ (fun _ _ => []) [] [] []
        ⟨"9".data, "frobnicate".data, [("x".data, "y".data)]⟩ =
      Except.ok (mismatchStr ("frobnicate".data) [("x".data, "y".data)], [], [], []) ∧
    stepIter ⟨none, none, none, none, fun _ => none⟩ (fun _ _ => [])
        ⟨[], [], [], 0⟩ ⟨none, [⟨"9".data, "frobnicate".data, [("x".data, "y".data)]⟩]⟩ =
      StepRes.next
        ⟨([] ++ [⟨"assistant".data, none, none, none,
            [⟨"9".data, "frobnicate".data, [("x".data, "y".data)]⟩]⟩]
            ++ List.map mismatchReply
                [⟨"9".data, "frobnicate".data, [("x".data, "y".data)]⟩] ++ []) ++
          (if 6 ≤ 0 + 1 then [warnMsg] else []),
         [], [], 0 + 1⟩ := by
  have h := c8_unknown_tool_keeps_loop ⟨none, none, none, none, fun _ => none⟩
    (fun _ _ => []) [] [] [] ⟨"9".data, "frobnicate".data, [("x".data, "y".data)]⟩
    ⟨[], [], [], 0⟩ ⟨none, [⟨"9".data, "frobnicate".data, [("x".data, "y".data)]⟩]⟩
  exact ⟨h.1 (by decide), h.2 (by decide) (by decide)⟩

theorem expectLit_length {lit s r : Str} (h : expectLit lit s = some r) :
    r.length + lit.length = s.length := by
  unfold expectLit at h
  by_cases hp : lit.isPrefixOf s = true
  · rw [if_pos hp] at h
    injection h with h2
    have hle : lit.length ≤ s.length :=
      (List.isPrefixOf_iff_prefix.mp hp).length_le
    rw [← h2, List.length_drop]
    omega
  · rw [if_neg hp] at h
    exact Option.noConfusion h

theorem expectChar_length {c : Char} {s r : Str} (h : expectChar c s = some r) :
    r.length + 1 = s.length := by
  cases s with
  | nil => exact Option.noConfusion h
  | cons x xs =>
    simp only [expectChar] at h
    by_cases hx : x = c
    · rw [if_pos hx] at h
      injection h with h2
      rw [← h2]
      simp
    · rw [if_neg hx] at h
      exact Option.noConfusion h

theorem takeDigits_length {s d r : Str} (h : takeDigits s = some (d, r)) :
    r.length ≤ s.length := by
  unfold takeDigits at h
  by_cases hd : s.takeWhile Char.isDigit = []
  · rw [if_pos hd] at h
    exact Option.noConfusion h
  · rw [if_neg hd] at h
    injection h with h2
    have : r = s.dropWhile Char.isDigit := (congrArg Prod.snd h2).symm
    rw [this]
    exact (List.dropWhile_suffix Char.isDigit).length_le

theorem parseNums_length {s : Str} {ns : Str × Str × Str × Str} {rest : Str}
    (h : parseNums s = some (ns, rest)) : rest.length < s.length := by
  unfold parseNums at h
  rcases h1 : expectChar ':' s with _ | s1
  · simp only [h1] at h
    exact Option.noConfusion h
  simp only [h1] at h
  rcases h2 : takeDigits s1 with _ | ⟨n1, s2⟩
  · simp only [h2] at h
    exact Option.noConfusion h
  simp only [h2] at h
  rcases h3 : expectChar ':' s2 with _ | s3
  · simp only [h3] at h
    exact Option.noConfusion h
  simp only [h3] at h
  rcases h4 : takeDigits s3 with _ | ⟨n2, s4⟩
  · simp only [h4] at h
    exact Option.noConfusion h
  simp only [h4] at h
  rcases h5 : expectChar ':' s4 with _ | s5
  · simp only [h5] at h
    exact Option.noConfusion h
  simp only [h5] at h
  rcases h6 : takeDigits s5 with _ | ⟨n3, s6⟩
  · simp only [h6] at h
    exact Option.noConfusion h
  simp only [h6] at h
  rcases h7 : expectChar ':' s6 with _ | s7
  · simp only [h7] at h
    exact Option.noConfusion h
  simp only [h7] at h
  rcases h8 : takeDigits s7 with _ | ⟨n4, s8⟩
  · simp only [h8] at h
    exact Option.noConfusion h
  simp only [h8] at h
  rcases h9 : expectLit ("\x22]]".data) s8 with _ | s9
  · simp only [h9] at h
    exact Option.noConfusion h
  simp only [h9, Option.some.injEq, Prod.mk.injEq] at h
  have hr : rest = s9 := h.2.symm
  subst hr
  have l1 := expectChar_length h1
  have l2 := takeDigits_length h2
  have l3 := expectChar_length h3
  have l4 := takeDigits_length h4
  have l5 := expectChar_length h5
  have l6 := takeDigits_length h6
  have l7 := expectChar_length h7
  have l8 := takeDigits_length h8
  have l9 := expectLit_length h9
  omega

theorem parseScheme_length (s : Str) : (parseScheme s).2.length ≤ s.length := by
  unfold parseScheme
  rcases h1 : expectLit ("relative://".data) s with _ | r1
  · rcases h2 : expectLit ("file://".data) s with _ | r2
    · simp
    · have := expectLit_length h2
      simp
      omega
  · have := expectLit_length h1
    simp
    omega

theorem parsePathGo_length {acc s : Str} {pr : Str × (Str × Str × Str × Str)}
    {rest : Str} (h : parsePathGo acc s = some (pr, rest)) :
    rest.length ≤ s.length := by
  induction s generalizing acc with
  | nil =>
    have hn : parseNums ([] : Str) = none := rfl
    simp only [parsePathGo, hn] at h
    exact Option.noConfusion h
  | cons c cs ih =>
    simp only [parsePathGo] at h
    rcases hn : parseNums (c :: cs) with _ | ⟨ns, r⟩
    · simp only [hn] at h
      by_cases hc : c = '\n'
      · rw [if_pos hc] at h
        exact Option.noConfusion h
      · rw [if_neg hc] at h
        have := ih h
        simp only [List.length_cons]
        omega
    · simp only [hn, Option.some.injEq, Prod.mk.injEq] at h
      have hr : rest = r := h.2.symm
      subst hr
      have := parseNums_length hn
      omega

theorem parsePath_length {s : Str} {pr : Str × (Str × Str × Str × Str)}
    {rest : Str} (h : parsePath s = some (pr, rest)) :
    rest.length < s.length := by
  unfold parsePath at h
  split at h
  · have := parsePathGo_length h
    simp only [List.length_cons]
    omega
  · exact Option.noConfusion h

theorem parseAfterLabel_length {s : Str}
    {r : Option Str × Str × (Str × Str × Str × Str)} {rest : Str}
    (h : parseAfterLabel s = some (r, rest)) : rest.length < s.length := by
  unfold parseAfterLabel at h
  rcases h1 : expectLit ("\x22|\x22".data) s with _ | s1
  · simp only [h1] at h
    exact Option.noConfusion h
  simp only [h1] at h
  rcases h2 : parsePath (parseScheme s1).2 with _ | ⟨pp, rest2⟩
  · simp only [h2] at h
    exact Option.noConfusion h
  simp only [h2, Option.some.injEq, Prod.mk.injEq] at h
  have hr : rest = rest2 := h.2.symm
  subst hr
  have l1 := expectLit_length h1
  have l2 := parseScheme_length s1
  have l3 := parsePath_length h2
  have hlen : ("\x22|\x22".data).length = 3 := rfl
  omega

theorem parseLabel_length {acc s : Str} {r : BRef} {rest : Str}
    (h : parseLabel acc s = some (r, rest)) : rest.length < s.length := by
  induction s generalizing acc with
  | nil =>
    have hn : parseAfterLabel ([] : Str) = none := rfl
    simp only [parseLabel, hn] at h
    exact Option.noConfusion h
  | cons c cs ih =>
    simp only [parseLabel] at h
    rcases hn : parseAfterLabel (c :: cs) with _ | ⟨q, rest2⟩
    · simp only [hn] at h
      by_cases hc : c = '\n'
      · rw [if_pos hc] at h
        exact Option.noConfusion h
      · rw [if_neg hc] at h
        have := ih h
        simp only [List.length_cons]
        omega
    · have hq := parseAfterLabel_length hn
      simp only [hn] at h
      rcases q with ⟨sch, path, n1, n2, n3, n4⟩
      simp only [Option.some.injEq, Prod.mk.injEq] at h
      have hr : rest = rest2 := h.2.symm
      subst hr
      exact hq

theorem matchRefAt_length {s : Str} {pr : BRef × Str}
    (h : matchRefAt s = some pr) : pr.2.length < s.length := by
  unfold matchRefAt at h
  rcases h1 : expectLit ("[[\x22".data) s with _ | s1
  · simp only [h1] at h
    exact Option.noConfusion h
  simp only [h1] at h
  rcases pr with ⟨r, rest⟩
  have := parseLabel_length h
  have l1 := expectLit_length h1
  have hlen : ("[[\x22".data).length = 3 := rfl
  simp only at *
  omega

theorem countRefsGo_fuel :
    ∀ (n : Nat), ∀ (m : Nat) (s : Str), s.length < n → s.length < m →
      countRefsGo n s = countRefsGo m s := by
  intro n
  induction n with
  | zero =>
    intro m s hn
    exact absurd hn (by omega)
  | succ fuel ih =>
    intro m s hn hm
    rcases m with _ | m2
    · exact absurd hm (by omega)
    rcases hmr : matchRefAt s with _ | pr
    · rcases s with _ | ⟨c, cs⟩
      · simp [countRefsGo, hmr]
      · simp only [countRefsGo, hmr]
        exact ih m2 cs (by simp at hn; omega) (by simp at hm; omega)
    · have hlt := matchRefAt_length hmr
      simp only [countRefsGo, hmr]
      rw [ih m2 pr.2 (by omega) (by omega)]

theorem rewriteMsgGo_no_refs (zipf : Str → Option Str) (code_path : Str) :
    ∀ (n : Nat) (s : Str), s.length < n → countRefsGo n s = 0 →
      rewriteMsgGo zipf code_path n s = Except.ok s := by
  intro n
  induction n with
  | zero =>
    intro s hlen
    exact absurd hlen (by omega)
  | succ fuel ih =>
    intro s hlen hcount
    rcases hm : matchRefAt s with _ | pr
    · rcases s with _ | ⟨c, cs⟩
      · simp [rewriteMsgGo, hm]
      · simp only [countRefsGo, hm] at hcount
        simp only [rewriteMsgGo, hm]
        rw [ih cs (by simp at hlen; omega) hcount]
    · simp only [countRefsGo, hm] at hcount
      omega

theorem rewriteMsgGo_one_ref (zipf : Str → Option Str) (code_path : Str) :
    ∀ (n : Nat) (s pre rest : Str) (ref : BRef) (rep : Str), s.length < n →
      splitFirstRef s = some (pre, ref, rest) →
      countBracketRefs rest = 0 →
      bracket_replacement zipf code_path ref = Except.ok rep →
      rewriteMsgGo zipf code_path n s = Except.ok (pre ++ rep ++ rest) := by
  intro n
  induction n with
  | zero =>
    intro s pre rest ref rep hlen
    exact absurd hlen (by omega)
  | succ fuel ih =>
    intro s pre rest ref rep hlen hsplit hcount hrep
    rcases s with _ | ⟨c, cs⟩
    · simp [splitFirstRef] at hsplit
    · rcases hm : matchRefAt (c :: cs) with _ | ⟨r2, rest2⟩
      · simp only [splitFirstRef, hm] at hsplit
        rcases hsp : splitFirstRef cs with _ | ⟨p2, ref2, rest3⟩
        · rw [hsp] at hsplit
          exact Option.noConfusion hsplit
        · rw [hsp] at hsplit
          simp only [Option.map_some', Option.some.injEq, Prod.mk.injEq] at hsplit
          obtain ⟨hpre, href, hrest⟩ := hsplit
          subst href
          subst hrest
          simp only [rewriteMsgGo, hm]
          rw [ih cs p2 rest3 ref2 rep (by simp at hlen; omega) hsp hcount hrep]
          rw [← hpre]
          simp
      · simp only [splitFirstRef, hm, Option.some.injEq, Prod.mk.injEq] at hsplit
        obtain ⟨hpre, href, hrest⟩ := hsplit
        subst href
        subst hrest
        have hlt := matchRefAt_length hm
        simp only [rewriteMsgGo, hm, hrep]
        have hcf : countRefsGo fuel rest2 = 0 := by
          rw [countRefsGo_fuel fuel (rest2.length + 1) rest2 ?h1 (by omega)]
          · exact hcount
          · simp only [List.length_cons] at hlen hlt; omega
        rw [rewriteMsgGo_no_refs zipf code_path fuel rest2
          (by simp only [List.length_cons] at hlen hlt; omega) hcf]
        rw [← hpre]
        simp

theorem bracket_replacement_form (zipf : Str → Option Str) (code_path : Str)
    (ref : BRef) (rep : Str)
    (hrep : bracket_replacement zipf code_path ref = Except.ok rep) :
    ∃ ln snippet, parseInt? ref.line_number = some ln ∧
      rep = ref.label ++ " \x27".data ++ snippet ++ "\x27 (".data ++
        basename ref.file_path ++ [':'] ++ intToStr ln ++ [')'] := by
  simp only [bracket_replacement] at hrep
  split at hrep
  · exact Except.noConfusion hrep
  · split at hrep
    · rename_i code_text hz ln so eo hln hso heo
      split at hrep
      · exact Except.noConfusion hrep
      · rename_i the_line hidx
        refine ⟨ln, pySlice the_line (so - 1) eo, hln, ?_⟩
        simp only [Except.ok.injEq] at hrep
        exact hrep.symm
    · exact Except.noConfusion hrep

/-- C9: a finding message with no embedded bracket reference is returned
unchanged by reference rewriting; a message with exactly one reference is
rewritten by substituting exactly that reference, leaving the surrounding
text identical, and the substituted text has the documented form
label \x27span\x27 (basename:line). -/
theorem c9_bracket_rewrite (zipf : Str → Option Str) (code_path : Str)
    (s pre rest : Str) (ref : BRef) (rep : Str) :
    (countBracketRefs s = 0 → rewriteMessage zipf code_path s = Except.ok s) ∧
    (splitFirstRef s = some (pre, ref, rest) →
      countBracketRefs rest = 0 →
      bracket_replacement zipf code_path ref = Except.ok rep →
      rewriteMessage zipf code_path s = Except.ok (pre ++ rep ++ rest) ∧
      ∃ ln snippet, parseInt? ref.line_number = some ln ∧
        rep = ref.label ++ " \x27".data ++ snippet ++ "\x27 (".data ++
          basename ref.file_path ++ [':'] ++ intToStr ln ++ [')']) := by
  constructor
  · intro hcount
    exact rewriteMsgGo_no_refs zipf code_path (s.length + 1) s (by omega) hcount
  · intro hsplit hcount hrep
    refine ⟨rewriteMsgGo_one_ref zipf code_path (s.length + 1) s pre rest ref rep
      (by omega) hsplit hcount hrep, ?_⟩
    exact bracket_replacement_form zipf code_path ref rep hrep

/-- Concrete instance of C9: the reference-free message is echoed, and a
one-reference message is rewritten to the documented form. -/
theorem c9_bracket_rewrite_witness :
    rewriteMessage (fun _ => none) "src".data "no refs here".data =
      Except.ok "no refs here".data ∧
    rewriteMessage
      (fun p => if p = "src/a.c".data then some "abcde\nxyz".data else none)
      "src".data
      "A [[\x22v\x22|\x22relative:///a.c:1:1:1:3\x22]] B".data =
      Except.ok "A v \x27abc\x27 (a.c:1) B".data := by
  constructor
  · exact (c9_bracket_rewrite (fun _ => none) "src".data "no refs here".data
      [] [] ⟨[], none, [], [], [], [], []⟩ []).1 (by decide)
  · have h := (c9_bracket_rewrite
      (fun p => if p = "src/a.c".data then some "abcde\nxyz".data else none)
      "src".data
      "A [[\x22v\x22|\x22relative:///a.c:1:1:1:3\x22]] B".data
      "A ".data " B".data
      (⟨"v".data, some "relative://".data, "/a.c".data,
        "1".data, "1".data, "1".data, "3".data⟩ : BRef)
      "v \x27abc\x27 (a.c:1)".data).2 (by decide) (by decide) (by rfl)
    exact h.1
